import Mathlib
/-!
# ToyC compiler: shallow embedding and verification

This file embeds, in Lean 4, the parts of the ToyC compiler (a C-subset to
RV32 compiler) that the verified properties are about:

* the AST shared by the semantic analyzers and the AST optimizer;
* the return-path check of the two semantic-analyzer variants
  (`part_001` analyzeVisitor and `TOYC2/src/semantic.cpp`);
* function registration / call resolution of both analyzer variants;
* the constant-detected division-by-zero check of both variants;
* the AST optimizer of `part_005` (`simplify_expression`,
  `constant_folding`, `evaluate_constant_expr`, `optimize_if_statement`,
  `optimize_while_statement` and the installing visitor);
* the short-circuit lowering of `part_011` (`processBinaryOp`) and of
  `src/src/code_generator.cpp` (`generate_short_circuit_and`/`_or`),
  together with a small operational semantics for the emitted assembly;
* the post-emission peephole pass of `part_011` (`peepholeOptimize`);
* the linear-scan and graph-coloring register allocators of `part_011`;
* the lexer of `part_011` (`Lexer::tokenize`).

Machine integers are modelled as `Int` normalized to the interval
`[-2^31, 2^31)` by an explicit two's-complement wrap; C truncating
division is `Int.tdiv` / `Int.tmod`.
-/

namespace ToyC

/-- Two's-complement wrap of an integer into `[-2^31, 2^31)`, the value
set of the C `int` type used throughout the compiler. -/
def wrap (n : Int) : Int :=
  (n + 2 ^ 31) % 2 ^ 32 - 2 ^ 31

/-! ## AST

The AST of the ToyC front end (`ast.h` of the TOYC2 variant; the
`part_001` analyzer uses the same node shapes under slightly different
class names: NumberExpr, VariableExpr/VarExpr, CallExpr, UnaryExpr,
BinaryExpr; ExprStmt (with a possibly null expression), Block/BlockStmt,
VarDecl, AssignStmt, IfStmt (null else allowed), WhileStmt, BreakStmt,
ContinueStmt, ReturnStmt).  A null `ExprStmt` expression is the
`Stmt.empty` form; the nullable else branch is an `Option`. -/

inductive UOp where
  | plus | minus | lognot
deriving DecidableEq, Repr

inductive BOp where
  | add | sub | mul | div | mod
  | lt | gt | le | ge | eq | ne
  | land | lor
deriving DecidableEq, Repr

inductive Expr where
  | number (v : Int)
  | var (name : String)
  | call (callee : String) (args : List Expr)
  | unary (op : UOp) (operand : Expr)
  | binary (op : BOp) (left right : Expr)

inductive Stmt where
  | empty
  | exprStmt (e : Expr)
  | block (stmts : List Stmt)
  | varDecl (name : String) (init : Expr)
  | assign (name : String) (value : Expr)
  | ifS (cond : Expr) (thenS : Stmt) (elseS : Option Stmt)
  | whileS (cond : Expr) (body : Stmt)
  | breakS
  | continueS
  | ret (value : Option Expr)

inductive Ty where
  | int | void
deriving DecidableEq, Repr

/-- A ToyC function definition (`FuncDef`): return type, name, parameter
names (every parameter has type `int`) and body. -/
structure FuncDef where
  returnType : Ty
  name : String
  params : List String
  body : Stmt

/-- A compilation unit (`CompUnit`): the top-level function list. -/
structure CompUnit where
  functions : List FuncDef

/-! ## C1: the missing-return check

Both analyzer variants drive the check from a per-function boolean flag
that is set by visiting any `ReturnStmt`:

* `part_001` `analyzeVisitor::visit(ReturnStmt)` (line 599) sets
  `hasReturn = true`; `visit(FunctionDef)` (line 648) reports the error
  iff `returnType != "void" && !hasReturn`.
* `TOYC2/src/semantic.cpp` `visit(ReturnStmt)` (line 239) sets
  `current_function_has_return = true`; `visit(FuncDef)` (lines 117-122)
  reports `MISSING_RETURN_STATEMENT` iff the return type is `int`, the
  flag is still false after walking the body, and
  `has_return_statement(body)` is also false.

The traversal visits every statement of the body (blocks visit all
children, `if` visits both branches, `while` visits its body), so the
flag after the walk is exactly "the body contains a Return statement
somewhere". -/

mutual
/-- Whether the analyzer traversal of a statement visits some
`ReturnStmt`: the value of the has-return flag after walking it. -/
def containsReturn : Stmt → Bool
  | .block ss => containsReturnList ss
  | .ifS _ t (some e) => containsReturn t || containsReturn e
  | .ifS _ t none => containsReturn t
  | .whileS _ b => containsReturn b
  | .ret _ => true
  | _ => false

def containsReturnList : List Stmt → Bool
  | [] => false
  | s :: rest => containsReturn s || containsReturnList rest
end

mutual
/-- Model of `SemanticAnalyzer::has_return_statement` (TOYC2/src/semantic.cpp
lines 373-396): true for a `ReturnStmt`; for a `Block`, true when ANY
child statement satisfies it; for an `IfStmt` with an else branch, true
when both branches satisfy it; false otherwise (in particular for an
else-less `if` and for a `while`). -/
def has_return_statement : Stmt → Bool
  | .ret _ => true
  | .block ss => has_return_statementList ss
  | .ifS _ t (some e) => has_return_statement t && has_return_statement e
  | _ => false

def has_return_statementList : List Stmt → Bool
  | [] => false
  | s :: rest => has_return_statement s || has_return_statementList rest
end

/-- Whether TOYC2's `visit(FuncDef)` reports `MISSING_RETURN_STATEMENT`
for a function (semantic.cpp lines 117-122). -/
def missingReturnReported (f : FuncDef) : Bool :=
  f.returnType == Ty.int && !containsReturn f.body && !has_return_statement f.body

/-- Whether part_001's `visit(FunctionDef)` reports the
"has no return statement" error (part_001 lines 648-650). -/
def missingReturnReportedP1 (f : FuncDef) : Bool :=
  f.returnType != Ty.void && !containsReturn f.body

mutual
/-- Modelled from the claim's wording (spec §4.1 return-path analysis),
for comparison with the source: a statement "returns" exactly when it is
a `Return`, a `Block` whose LAST statement returns, or an `If` whose
both arms return. -/
def pathReturns : Stmt → Bool
  | .ret _ => true
  | .block ss => pathReturnsLast ss
  | .ifS _ t (some e) => pathReturns t && pathReturns e
  | _ => false

def pathReturnsLast : List Stmt → Bool
  | [] => false
  | [s] => pathReturns s
  | _ :: rest => pathReturnsLast rest
end

/-- An `int` function whose only `return` sits inside one arm of an
else-less `if`: `int f(int c) { if (c) { return 0; } }`. -/
def c1Func : FuncDef :=
  { returnType := Ty.int
  , name := "f"
  , params := ["c"]
  , body := Stmt.block [Stmt.ifS (Expr.var "c") (Stmt.ret (some (Expr.number 0))) none] }

/-! ## C3: function registration and call resolution

* TOYC2 `visit(CompUnit)` (semantic.cpp lines 73-94) registers every
  top-level function in a first loop ("第一遍: 收集所有函数定义") and only
  then analyzes bodies, so a call site resolves against the full table.
* part_001 `visit(CompUnit)` (lines 660-677) has NO such pre-pass: it
  only checks that some function is named `main`, then visits the
  definitions in order; `visit(FunctionDef)` (line 621) inserts the
  function into `functionTable` just before walking its own body, and
  `visit(CallExpr)` (lines 446-451) reports "Undefined function" iff the
  callee is not yet in `functionTable` and is not the current function.

Crucially, the traversal does NOT reach every syntactic call site: both
analyzers RETURN from `visit(CallExpr)` on an unresolved callee without
visiting the call's arguments (part_001 lines 448-451; TOYC2 lines
312-317, which also returns early on an argument-count mismatch, lines
320-327), and a few statement visitors skip their subexpression on an
error (part_001 `visit(AssignStmt)` lines 505-510 skips the value of an
assignment to an undefined name; TOYC2 `visit(VarDecl)` lines 148-163
skips the initializer of a redeclared variable, `visit(AssignStmt)`
lines 165-187 skips the value when the target is undefined or is a
function, `visit(ReturnStmt)` lines 247-262 skips the returned value in
a `void` function).  The models below therefore thread the symbol-table
state the C++ visitors consult and reproduce every one of these early
returns; reports are the callee names emitted in visit order. -/

mutual
/-- Claim-side SYNTACTIC collector: every callee name occurring anywhere
inside an expression.  This is NOT the analyzer traversal (which can
skip arguments, see `p1VisitE` and `t2VisitE`); it is used only to
state the hypothesis "every called name is defined somewhere in the
unit". -/
def calleeNamesE : Expr → List String
  | .number _ => []
  | .var _ => []
  | .unary _ e => calleeNamesE e
  | .binary _ l r => calleeNamesE l ++ calleeNamesE r
  | .call f args => f :: calleeNamesEList args

def calleeNamesEList : List Expr → List String
  | [] => []
  | e :: rest => calleeNamesE e ++ calleeNamesEList rest
end

mutual
/-- Claim-side syntactic collector over statements: every callee name
occurring anywhere inside a statement (companion of `calleeNamesE`). -/
def calleeNamesS : Stmt → List String
  | .exprStmt e => calleeNamesE e
  | .block ss => calleeNamesSList ss
  | .varDecl _ i => calleeNamesE i
  | .assign _ v => calleeNamesE v
  | .ifS c t (some e) => calleeNamesE c ++ calleeNamesS t ++ calleeNamesS e
  | .ifS c t none => calleeNamesE c ++ calleeNamesS t
  | .whileS c b => calleeNamesE c ++ calleeNamesS b
  | .ret (some v) => calleeNamesE v
  | _ => []

def calleeNamesSList : List Stmt → List String
  | [] => []
  | s :: rest => calleeNamesS s ++ calleeNamesSList rest
end

/-- Every callee name occurring anywhere in a compilation unit. -/
def calleeNamesUnit (cu : CompUnit) : List String :=
  cu.functions.flatMap (fun f => calleeNamesS f.body)

/-- Model of `helper.findSymbol` as used by part_001's analyzeVisitor:
only name existence across the open scopes matters for the analyzer's
early returns, so a scope is its list of declared names, innermost
scope first. -/
def p1Find (scopes : List (List String)) (n : String) : Bool :=
  scopes.any (fun s => s.contains n)

/-- Model of `helper.declareSymbol` into the innermost scope (a failed
duplicate declaration leaves name existence unchanged, so the model may
add unconditionally). -/
def p1Declare (n : String) : List (List String) → List (List String)
  | [] => [[n]]
  | s :: rest => (n :: s) :: rest

mutual
/-- Model of part_001 `analyzeVisitor` expression visiting, restricted
to the "Undefined function" reports it emits: `visit(CallExpr)` (lines
446-451) reports the callee and RETURNS — skipping the arguments — iff
the callee is neither in `functionTable` nor `currentFunction`;
otherwise the arguments are visited in order (an argument-count or
argument-type mismatch is a different error and does not stop the
walk, lines 456-475).  `visit(UnaryExpr)` and `visit(BinaryExpr)`
(lines 388-446) always visit their operands.  Returns the reported
callee names in visit order. -/
def p1VisitE (table : List String) (cur : String) : Expr → List String
  | .number _ => []
  | .var _ => []
  | .unary _ e => p1VisitE table cur e
  | .binary _ l r => p1VisitE table cur l ++ p1VisitE table cur r
  | .call f args =>
    if !table.contains f && f != cur then [f]
    else p1VisitEList table cur args

def p1VisitEList (table : List String) (cur : String) : List Expr → List String
  | [] => []
  | e :: rest => p1VisitE table cur e ++ p1VisitEList table cur rest
end

mutual
/-- Model of part_001 `analyzeVisitor` statement visiting, restricted to
the control flow that decides which `CallExpr`s are reached:
`visit(BlockStmt)` (lines 526-530) opens a scope; `visit(VarDeclStmt)`
(lines 486-504) visits the initializer and then declares the name (a
redeclaration error does not stop it); `visit(AssignStmt)` (lines
505-524) returns WITHOUT visiting the value iff `findSymbol` fails on
the target; `visit(IfStmt)`, `visit(WhileStmt)` and `visit(ReturnStmt)`
(lines 532-600) visit all their children unconditionally.  Returns the
reported callee names and the updated scope state. -/
def p1VisitS (table : List String) (cur : String) :
    List (List String) → Stmt → List String × List (List String)
  | scopes, .empty => ([], scopes)
  | scopes, .exprStmt e => (p1VisitE table cur e, scopes)
  | scopes, .block ss =>
    ((p1VisitSList table cur ([] :: scopes) ss).1, scopes)
  | scopes, .varDecl n i => (p1VisitE table cur i, p1Declare n scopes)
  | scopes, .assign n v =>
    if p1Find scopes n then (p1VisitE table cur v, scopes) else ([], scopes)
  | scopes, .ifS c t none =>
    (p1VisitE table cur c ++ (p1VisitS table cur scopes t).1,
     (p1VisitS table cur scopes t).2)
  | scopes, .ifS c t (some e) =>
    (p1VisitE table cur c ++ (p1VisitS table cur scopes t).1 ++
       (p1VisitS table cur (p1VisitS table cur scopes t).2 e).1,
     (p1VisitS table cur (p1VisitS table cur scopes t).2 e).2)
  | scopes, .whileS c b =>
    (p1VisitE table cur c ++ (p1VisitS table cur scopes b).1,
     (p1VisitS table cur scopes b).2)
  | scopes, .breakS => ([], scopes)
  | scopes, .continueS => ([], scopes)
  | scopes, .ret (some v) => (p1VisitE table cur v, scopes)
  | scopes, .ret none => ([], scopes)

def p1VisitSList (table : List String) (cur : String) :
    List (List String) → List Stmt → List String × List (List String)
  | scopes, [] => ([], scopes)
  | scopes, s :: rest =>
    ((p1VisitS table cur scopes s).1 ++
       (p1VisitSList table cur (p1VisitS table cur scopes s).2 rest).1,
     (p1VisitSList table cur (p1VisitS table cur scopes s).2 rest).2)
end

/-- Model of part_001 `visit(FunctionDef)` (lines 602-658) restricted to
undefined-function reports: the function is inserted into
`functionTable` BEFORE its body is walked (line 621), `currentFunction`
is its name, and the function scope declares the function name and the
parameters (lines 633-645); the body block then opens its own scope.
Returns the (caller, callee) pairs reported inside this function. -/
def p1VisitFunc (table : List String) (f : FuncDef) : List (String × String) :=
  ((p1VisitS (f.name :: table) f.name [f.name :: f.params] f.body).1).map
    (fun c => (f.name, c))

/-- part_001 `visit(CompUnit)` (lines 660-677): the definitions are
visited in order, each one extending `functionTable` for its
successors. -/
def undefCallsP1Go : List String → List FuncDef → List (String × String)
  | _, [] => []
  | table, f :: rest =>
    p1VisitFunc table f ++ undefCallsP1Go (f.name :: table) rest

/-- The "Undefined function" reports of part_001's analyzer over a
compilation unit (the `functionTable` starts empty). -/
def undefCallsP1 (cu : CompUnit) : List (String × String) :=
  undefCallsP1Go [] cu.functions

/-- Symbol kinds of TOYC2's symbol table (symbol_table.h
`SymbolType`). -/
inductive SymKind where
  | var | param | func
deriving DecidableEq, Repr

/-- First-match lookup in TOYC2's function table (name to parameter
count); `define_function` keeps the first definition on a duplicate, so
a later duplicate entry in the list is never reached. -/
def lookupArity : List (String × Nat) → String → Option Nat
  | [], _ => none
  | (n, a) :: rest, k => if k == n then some a else lookupArity rest k

/-- Model of `Scope::is_defined_local` on the innermost TOYC2 scope. -/
def t2DefinedLocal (scopes : List (List (String × SymKind))) (n : String) : Bool :=
  match scopes with
  | [] => false
  | s :: _ => s.any (fun p => p.1 == n)

/-- Model of `SymbolTable::lookup_symbol` (symbol_table.cpp 103-105):
walk the scope chain innermost-out (the global scope, holding the
functions, is the outermost parent) and return the first symbol found. -/
def t2Lookup : List (List (String × SymKind)) → String → Option SymKind
  | [], _ => none
  | s :: rest, n =>
    match s.find? (fun p => p.1 == n) with
    | some p => some p.2
    | none => t2Lookup rest n

/-- Model of `define_variable` into the innermost TOYC2 scope (called
only after `is_defined_local` ruled out a duplicate). -/
def t2Declare (n : String) (k : SymKind) :
    List (List (String × SymKind)) → List (List (String × SymKind))
  | [] => [[(n, k)]]
  | s :: rest => ((n, k) :: s) :: rest

mutual
/-- Model of TOYC2 expression analysis restricted to UNDEFINED_FUNCTION
reports: `visit(CallExpr)` (semantic.cpp lines 310-344) reports the
callee and returns — skipping the arguments — when `lookup_function`
fails; an argument-COUNT mismatch is a different error that ALSO
returns before any argument is analyzed (lines 320-327); otherwise
every argument is analyzed (argument-type errors do not stop the
walk). -/
def t2VisitE (table : List (String × Nat)) : Expr → List String
  | .number _ => []
  | .var _ => []
  | .unary _ e => t2VisitE table e
  | .binary _ l r => t2VisitE table l ++ t2VisitE table r
  | .call f args =>
    match lookupArity table f with
    | none => [f]
    | some a => if args.length != a then [] else t2VisitEList table args

def t2VisitEList (table : List (String × Nat)) : List Expr → List String
  | [] => []
  | e :: rest => t2VisitE table e ++ t2VisitEList table rest
end

mutual
/-- Model of TOYC2 statement analysis restricted to the control flow
that decides which `CallExpr`s are reached: `visit(VarDecl)` (lines
148-163) returns WITHOUT analyzing the initializer when the name is
already defined in the current scope, and otherwise defines it and then
analyzes the initializer; `visit(AssignStmt)` (lines 165-187) returns
without analyzing the value when the target is unresolvable or is not a
variable or parameter; `visit(ReturnStmt)` (lines 247-270) analyzes the
returned value only in a non-void function; `visit(Block)` (lines
129-141) opens a scope; `if` and `while` visit all children.  Returns
the reported callee names and the updated scope state. -/
def t2VisitS (table : List (String × Nat)) (retTy : Ty) :
    List (List (String × SymKind)) → Stmt →
      List String × List (List (String × SymKind))
  | scopes, .empty => ([], scopes)
  | scopes, .exprStmt e => (t2VisitE table e, scopes)
  | scopes, .block ss =>
    ((t2VisitSList table retTy ([] :: scopes) ss).1, scopes)
  | scopes, .varDecl n i =>
    if t2DefinedLocal scopes n then ([], scopes)
    else (t2VisitE table i, t2Declare n SymKind.var scopes)
  | scopes, .assign n v =>
    match t2Lookup scopes n with
    | some SymKind.var => (t2VisitE table v, scopes)
    | some SymKind.param => (t2VisitE table v, scopes)
    | _ => ([], scopes)
  | scopes, .ifS c t none =>
    (t2VisitE table c ++ (t2VisitS table retTy scopes t).1,
     (t2VisitS table retTy scopes t).2)
  | scopes, .ifS c t (some e) =>
    (t2VisitE table c ++ (t2VisitS table retTy scopes t).1 ++
       (t2VisitS table retTy (t2VisitS table retTy scopes t).2 e).1,
     (t2VisitS table retTy (t2VisitS table retTy scopes t).2 e).2)
  | scopes, .whileS c b =>
    (t2VisitE table c ++ (t2VisitS table retTy scopes b).1,
     (t2VisitS table retTy scopes b).2)
  | scopes, .breakS => ([], scopes)
  | scopes, .continueS => ([], scopes)
  | scopes, .ret (some v) =>
    if retTy == Ty.void then ([], scopes) else (t2VisitE table v, scopes)
  | scopes, .ret none => ([], scopes)

def t2VisitSList (table : List (String × Nat)) (retTy : Ty) :
    List (List (String × SymKind)) → List Stmt →
      List String × List (List (String × SymKind))
  | scopes, [] => ([], scopes)
  | scopes, s :: rest =>
    ((t2VisitS table retTy scopes s).1 ++
       (t2VisitSList table retTy (t2VisitS table retTy scopes s).2 rest).1,
     (t2VisitSList table retTy (t2VisitS table retTy scopes s).2 rest).2)
end

/-- TOYC2's pre-pass function table (semantic.cpp lines 74-88): every
top-level function with its parameter count, in definition order
(first-match lookup realizes keep-first on duplicates). -/
def t2Table (cu : CompUnit) : List (String × Nat) :=
  cu.functions.map (fun f => (f.name, f.params.length))

/-- TOYC2's global scope after the pre-pass: every function name as a
FUNCTION symbol. -/
def t2GlobalScope (cu : CompUnit) : List (String × SymKind) :=
  cu.functions.map (fun f => (f.name, SymKind.func))

/-- The UNDEFINED_FUNCTION reports of TOYC2's analyzer over a
compilation unit (`visit(CompUnit)`, semantic.cpp lines 73-94): the
pre-pass builds the full table and global scope, then each body is
analyzed with `visit(FuncDef)` (lines 95-127), which opens the
parameter scope before the body block opens its own. -/
def undefCallsT2 (cu : CompUnit) : List (String × String) :=
  cu.functions.flatMap (fun f =>
    ((t2VisitS (t2Table cu) f.returnType
        [f.params.map (fun p => (p, SymKind.param)), t2GlobalScope cu]
        f.body).1).map
      (fun c => (f.name, c)))

/-- A unit in which `f` calls the later-defined `g`:
`int f() { return g(); } int g() { return 0; } int main() { return f(); }`. -/
def c3Unit : CompUnit :=
  { functions :=
      [ { returnType := Ty.int, name := "f", params := []
        , body := Stmt.block [Stmt.ret (some (Expr.call "g" []))] }
      , { returnType := Ty.int, name := "g", params := []
        , body := Stmt.block [Stmt.ret (some (Expr.number 0))] }
      , { returnType := Ty.int, name := "main", params := []
        , body := Stmt.block [Stmt.ret (some (Expr.call "f" []))] } ] }

/-- The skipped-arguments unit: `int a() { return y(x()); }` with `x`
defined later and `y` defined nowhere.  Both analyzers report only `y`:
the early return on the unresolved callee `y` means the nested call to
`x` is never visited, so part_001 never reports the later-defined `x`. -/
def c3NestedUnit : CompUnit :=
  { functions :=
      [ { returnType := Ty.int, name := "a", params := []
        , body := Stmt.block
            [Stmt.ret (some (Expr.call "y" [Expr.call "x" []]))] }
      , { returnType := Ty.int, name := "x", params := []
        , body := Stmt.block [Stmt.ret (some (Expr.number 0))] }
      , { returnType := Ty.int, name := "main", params := []
        , body := Stmt.block [Stmt.ret (some (Expr.call "a" []))] } ] }

/-! ## C6: the constant-detected division-by-zero check

* part_001 `visit(BinaryExpr)` (lines 403-409): for `/` and `%`, the
  right operand is constant-folded with `analyzeHelper::evaluateConstant`
  (lines 43-87) and "Division by zero" is reported iff the fold yields 0.
* TOYC2 `visit(BinaryExpr)` (semantic.cpp lines 271-279): only a right
  operand that is syntactically a `NumberExpr` with value 0 triggers the
  report. -/

/-- Model of `analyzeHelper::evaluateConstant` (part_001 lines 43-87): evaluates
an expression built from literals, unary and binary operators; `Var` and
`Call` (and division/modulo by zero) yield "no value".  C `int`
arithmetic is modelled with two's-complement wrap and truncating
division. -/
def evaluateConstant : Expr → Option Int
  | .number v => some v
  | .unary op e =>
    match evaluateConstant e with
    | none => none
    | some v =>
      match op with
      | .plus => some v
      | .minus => some (wrap (-v))
      | .lognot => some (if v = 0 then 1 else 0)
  | .binary op l r =>
    match evaluateConstant l, evaluateConstant r with
    | some lv, some rv =>
      match op with
      | .add => some (wrap (lv + rv))
      | .sub => some (wrap (lv - rv))
      | .mul => some (wrap (lv * rv))
      | .div => if rv = 0 then none else some (wrap (Int.tdiv lv rv))
      | .mod => if rv = 0 then none else some (wrap (Int.tmod lv rv))
      | .lt => some (if lv < rv then 1 else 0)
      | .gt => some (if rv < lv then 1 else 0)
      | .le => some (if lv ≤ rv then 1 else 0)
      | .ge => some (if rv ≤ lv then 1 else 0)
      | .eq => some (if lv = rv then 1 else 0)
      | .ne => some (if lv ≠ rv then 1 else 0)
      | .land => some (if lv ≠ 0 ∧ rv ≠ 0 then 1 else 0)
      | .lor => some (if lv ≠ 0 ∨ rv ≠ 0 then 1 else 0)
    | _, _ => none
  | _ => none

/-- Whether part_001's `visit(BinaryExpr)` reports "Division by zero"
for a binary expression with the given operator and right operand. -/
def divByZeroReportedP1 (op : BOp) (r : Expr) : Bool :=
  (op == BOp.div || op == BOp.mod) && (evaluateConstant r == some 0)

/-- Whether TOYC2's `visit(BinaryExpr)` reports `DIVISION_BY_ZERO`: the
right operand must be a `NumberExpr` literal equal to 0. -/
def divByZeroReportedT2 (op : BOp) (r : Expr) : Bool :=
  (op == BOp.div || op == BOp.mod) &&
    (match r with
     | .number v => v == 0
     | _ => false)

/-- The compound constant right operand `2 - 2`. -/
def c6Rhs : Expr := Expr.binary BOp.sub (Expr.number 2) (Expr.number 2)

/-! ## The AST optimizer (part_005)

`Optimizer::is_constant_expr` (lines 395-409),
`Optimizer::evaluate_constant_expr` (lines 411-448) — total, strict,
with division/modulo by zero yielding the default value 0 —,
`Optimizer::constant_folding` for binary (145-202) and unary (204-227)
expressions, and `Optimizer::simplify_expression` (229-325), the only
place where the optimizer actually installs a rewritten expression. -/

/-- Model of `Optimizer::is_constant_expr`: an expression built solely from
literals and unary/binary operators. -/
def is_constant_expr : Expr → Bool
  | .number _ => true
  | .binary _ l r => is_constant_expr l && is_constant_expr r
  | .unary _ e => is_constant_expr e
  | _ => false

/-- Model of `Optimizer::evaluate_constant_expr`: total strict evaluation; a
division or modulo whose right value is 0 yields the C++ function's
default value 0 (lines 424-425, 447). -/
def evaluate_constant_expr : Expr → Int
  | .number v => v
  | .binary op l r =>
    let lv := evaluate_constant_expr l
    let rv := evaluate_constant_expr r
    match op with
    | .add => wrap (lv + rv)
    | .sub => wrap (lv - rv)
    | .mul => wrap (lv * rv)
    | .div => if rv ≠ 0 then wrap (Int.tdiv lv rv) else 0
    | .mod => if rv ≠ 0 then wrap (Int.tmod lv rv) else 0
    | .lt => if lv < rv then 1 else 0
    | .gt => if rv < lv then 1 else 0
    | .le => if lv ≤ rv then 1 else 0
    | .ge => if rv ≤ lv then 1 else 0
    | .eq => if lv = rv then 1 else 0
    | .ne => if lv ≠ rv then 1 else 0
    | .land => if lv ≠ 0 ∧ rv ≠ 0 then 1 else 0
    | .lor => if lv ≠ 0 ∨ rv ≠ 0 then 1 else 0
  | .unary op e =>
    let v := evaluate_constant_expr e
    match op with
    | .plus => v
    | .minus => wrap (-v)
    | .lognot => if v = 0 then 1 else 0
  | _ => 0

/-- Model of `Optimizer::constant_folding(BinaryExpr&)` (lines 145-202): both
operands must be constant expressions; a division or modulo whose right
value is 0 is NOT folded (lines 166, 170). -/
def constant_foldingB (op : BOp) (l r : Expr) : Option Expr :=
  if !is_constant_expr l || !is_constant_expr r then none
  else
    let lv := evaluate_constant_expr l
    let rv := evaluate_constant_expr r
    match op with
    | .add => some (.number (wrap (lv + rv)))
    | .sub => some (.number (wrap (lv - rv)))
    | .mul => some (.number (wrap (lv * rv)))
    | .div => if rv = 0 then none else some (.number (wrap (Int.tdiv lv rv)))
    | .mod => if rv = 0 then none else some (.number (wrap (Int.tmod lv rv)))
    | .lt => some (.number (if lv < rv then 1 else 0))
    | .gt => some (.number (if rv < lv then 1 else 0))
    | .le => some (.number (if lv ≤ rv then 1 else 0))
    | .ge => some (.number (if rv ≤ lv then 1 else 0))
    | .eq => some (.number (if lv = rv then 1 else 0))
    | .ne => some (.number (if lv ≠ rv then 1 else 0))
    | .land => some (.number (if lv ≠ 0 ∧ rv ≠ 0 then 1 else 0))
    | .lor => some (.number (if lv ≠ 0 ∨ rv ≠ 0 then 1 else 0))

/-- Model of `Optimizer::constant_folding(UnaryExpr&)` (lines 204-227). -/
def constant_foldingU (op : UOp) (operand : Expr) : Option Expr :=
  if !is_constant_expr operand then none
  else
    let v := evaluate_constant_expr operand
    match op with
    | .plus => some (.number v)
    | .minus => some (.number (wrap (-v)))
    | .lognot => some (.number (if v = 0 then 1 else 0))

/-- Model of `Optimizer::simplify_expression` (lines 229-325): constant folding,
then the algebraic rules in source order — `x+0`, `0+x`, `x*1`, `1*x`,
`x*0`/`0*x` (either side constant 0, line 273-280), `x-0` — for binary
nodes; constant folding, then `--x → x` and `!!x → x != 0` for unary
nodes.  These are the only implemented algebraic rules; in particular
there is no side-effect check anywhere in this function. -/
def simplify_expression (e : Expr) : Expr :=
  match e with
  | .binary op l r =>
    match constant_foldingB op l r with
    | some f => f
    | none =>
      if op == BOp.add && is_constant_expr r && (evaluate_constant_expr r == (0 : Int)) then l
      else if op == BOp.add && is_constant_expr l && (evaluate_constant_expr l == (0 : Int)) then r
      else if op == BOp.mul && is_constant_expr r && (evaluate_constant_expr r == (1 : Int)) then l
      else if op == BOp.mul && is_constant_expr l && (evaluate_constant_expr l == (1 : Int)) then r
      else if op == BOp.mul &&
          ((is_constant_expr l && (evaluate_constant_expr l == (0 : Int))) ||
           (is_constant_expr r && (evaluate_constant_expr r == (0 : Int)))) then
        Expr.number 0
      else if op == BOp.sub && is_constant_expr r && (evaluate_constant_expr r == (0 : Int)) then l
      else .binary op l r
  | .unary op operand =>
    match constant_foldingU op operand with
    | some f => f
    | none =>
      match op, operand with
      | .minus, .unary .minus inner => inner
      | .lognot, .unary .lognot inner => .binary BOp.ne inner (.number 0)
      | _, _ => .unary op operand
  | e => e

/-- Model of `Optimizer::has_side_effects` (lines 450-466): only a `CallExpr`
(possibly nested) has side effects.  (This helper is consulted only by
`eliminate_dead_code`; `simplify_expression` never calls it.) -/
def has_side_effects : Expr → Bool
  | .call _ _ => true
  | .binary _ l r => has_side_effects l || has_side_effects r
  | .unary _ e => has_side_effects e
  | _ => false

/-- Model of `Optimizer::is_unreachable_after` (lines 354-358). -/
def is_unreachable_after : Stmt → Bool
  | .ret _ => true
  | .breakS => true
  | .continueS => true
  | _ => false

/-- Model of `Optimizer::eliminate_dead_code` (lines 327-352): the iterator loop
over a block's statements; a statement following a Return/Break/Continue
is erased, and an `ExprStmt` with a non-null side-effect-free expression
is erased; erasing re-examines the same index. -/
def edcGo (ss : List Stmt) (i : Nat) : List Stmt :=
  if h : i < ss.length then
    if i ≠ 0 ∧ ∃ h2 : i - 1 < ss.length, is_unreachable_after (ss.get ⟨i - 1, h2⟩) then
      edcGo (ss.eraseIdx i) i
    else if (match ss.get ⟨i, h⟩ with
             | .exprStmt e => !has_side_effects e
             | _ => false) then
      edcGo (ss.eraseIdx i) i
    else
      edcGo ss (i + 1)
  else ss
termination_by ss.length - i
decreasing_by
  all_goals simp_all [List.length_eraseIdx]
  all_goals omega

/-- Model of `Optimizer::optimize_while_statement` (lines 381-393): a `While`
whose condition is a constant 0 yields a fresh empty statement as the
suggested replacement; otherwise no replacement. -/
def optimize_while_statement (cond : Expr) : Option Stmt :=
  if is_constant_expr cond then
    if evaluate_constant_expr cond = 0 then some Stmt.empty else none
  else none

/-- Model of `Optimizer::optimize_if_statement` (lines 360-379), including the
C++ move semantics: when the condition is constant the live branch is
`std::move`d out of the node and returned (a moved-from `unique_ptr` is
null).  Result: (suggested replacement, then-slot after the call,
else-slot after the call). -/
def optimize_if_statement (cond : Expr) (thenS : Stmt) (elseS : Option Stmt) :
    Option Stmt × Option Stmt × Option Stmt :=
  if is_constant_expr cond then
    if evaluate_constant_expr cond ≠ 0 then
      (some thenS, none, elseS)
    else
      match elseS with
      | some e => (some e, some thenS, none)
      | none => (some Stmt.empty, some thenS, none)
  else (none, some thenS, elseS)

mutual
/-- The optimizer's statement visitor (part_005 `visit(Block)` lines
35-43, `visit(ExprStmt)`/`visit(VarDecl)`/`visit(AssignStmt)` 45-57,
`visit(IfStmt)` 59-75, `visit(WhileStmt)` 77-89, `visit(ReturnStmt)`
99-103).  It returns the statement tree as the visitor leaves it in
place, together with the number of "if-statement simplification" /
"while-statement simplification" rewrites recorded by
`record_optimization`, or an error when the visitor dereferences a
branch that `optimize_if_statement` has moved out of the node:

* constant non-zero `if` condition: `optimize_if_statement` moves the
  then branch out and returns it; `visit(IfStmt)` discards the returned
  replacement (the "简化实现中跳过" comment at line 66), records the
  rewrite, and then runs `node.then_stmt->accept(*this)` on the now-null
  then pointer — a null dereference;
* constant zero `if` condition with an else branch: the else branch is
  moved out, returned, discarded and destroyed; the `If` node stays in
  the tree with a null else slot;
* constant zero `if` condition without else: the suggested replacement
  (a fresh empty statement) is discarded; the node stays;
* constant zero `while` condition: the suggested replacement is
  discarded; the `While` node stays unchanged apart from its simplified
  condition. -/
def optVisitStmt : Stmt → Except Unit (Stmt × Nat)
  | .exprStmt e => .ok (.exprStmt (simplify_expression e), 0)
  | .varDecl n i => .ok (.varDecl n (simplify_expression i), 0)
  | .assign n v => .ok (.assign n (simplify_expression v), 0)
  | .block ss => do
      let (ss2, k) ← optVisitList ss
      .ok (.block (edcGo ss2 0), k)
  | .ifS c t e =>
      let c2 := simplify_expression c
      if is_constant_expr c2 then
        if evaluate_constant_expr c2 ≠ 0 then
          .error ()
        else do
          let (t3, k1) ← optVisitStmt t
          .ok (.ifS c2 t3 none, 1 + k1)
      else do
        let (t3, k1) ← optVisitStmt t
        match e with
        | some els => do
            let (e3, k2) ← optVisitStmt els
            .ok (.ifS c2 t3 (some e3), k1 + k2)
        | none => .ok (.ifS c2 t3 none, k1)
  | .whileS c b => do
      let c2 := simplify_expression c
      let recorded := (optimize_while_statement c2).isSome
      let (b2, k) ← optVisitStmt b
      .ok (.whileS c2 b2, (if recorded then 1 else 0) + k)
  | .ret (some v) => .ok (.ret (some (simplify_expression v)), 0)
  | s => .ok (s, 0)

def optVisitList : List Stmt → Except Unit (List Stmt × Nat)
  | [] => .ok ([], 0)
  | s :: rest => do
      let (s2, k1) ← optVisitStmt s
      let (rest2, k2) ← optVisitList rest
      .ok (s2 :: rest2, k1 + k2)
end

/-! ## C5: call preservation under algebraic simplification -/

mutual
/-- Number of `CallExpr` nodes in an expression. -/
def callCount : Expr → Nat
  | .call _ args => 1 + callCountList args
  | .unary _ e => callCount e
  | .binary _ l r => callCount l + callCount r
  | _ => 0

def callCountList : List Expr → Nat
  | [] => 0
  | e :: rest => callCount e + callCountList rest
end

/-- The guard of the `x*0 = 0` rule (part_005 lines 273-280): a
multiplication one of whose sides is a constant expression evaluating
to 0. -/
def mulZeroFires : Expr → Bool
  | .binary .mul l r =>
    (is_constant_expr l && (evaluate_constant_expr l == (0 : Int))) ||
      (is_constant_expr r && (evaluate_constant_expr r == (0 : Int)))
  | _ => false

/-- The expression `f() * 0`. -/
def c5Expr : Expr := Expr.binary BOp.mul (Expr.call "f" []) (Expr.number 0)

/-! ## C2: folding soundness

The reference semantics `evalE` is the spec-side evaluation of a ToyC
expression (spec §8 "Folding soundness"): variables hold 32-bit values,
arithmetic wraps, `/` and `%` truncate toward zero and signal
DivisionByZero (`none`) on a zero right operand, and `&&`/`||`
short-circuit producing {0,1}.  `Call` is outside the relation: the
claim quantifies over Call-free expressions. -/

mutual
/-- All integer literals of the expression lie in the 32-bit range —
true of every parser-produced AST, whose literals are C ints. -/
def litsInRange : Expr → Bool
  | .number v => decide (-2 ^ 31 ≤ v) && decide (v < 2 ^ 31)
  | .var _ => true
  | .call _ args => litsInRangeList args
  | .unary _ e => litsInRange e
  | .binary _ l r => litsInRange l && litsInRange r

def litsInRangeList : List Expr → Bool
  | [] => true
  | e :: rest => litsInRange e && litsInRangeList rest
end

/-- Strict value semantics of a binary operator on already-evaluated
operands (the non-short-circuit rows of `evalE`; the `land`/`lor` rows
are unreachable from `evalE`, which short-circuits them first). -/
def strictBinSem (op : BOp) (lv rv : Int) : Option Int :=
  match op with
  | .add => some (wrap (lv + rv))
  | .sub => some (wrap (lv - rv))
  | .mul => some (wrap (lv * rv))
  | .div => if rv = 0 then none else some (wrap (Int.tdiv lv rv))
  | .mod => if rv = 0 then none else some (wrap (Int.tmod lv rv))
  | .lt => some (if lv < rv then 1 else 0)
  | .gt => some (if rv < lv then 1 else 0)
  | .le => some (if lv ≤ rv then 1 else 0)
  | .ge => some (if rv ≤ lv then 1 else 0)
  | .eq => some (if lv = rv then 1 else 0)
  | .ne => some (if lv ≠ rv then 1 else 0)
  | .land => some (if lv ≠ 0 ∧ rv ≠ 0 then 1 else 0)
  | .lor => some (if lv ≠ 0 ∨ rv ≠ 0 then 1 else 0)

/-- Reference ToyC expression semantics (see section comment). -/
def evalE (env : String → Int) : Expr → Option Int
  | .number v => some v
  | .var x => some (wrap (env x))
  | .call _ _ => none
  | .unary op e =>
    match evalE env e with
    | none => none
    | some v =>
      match op with
      | .plus => some v
      | .minus => some (wrap (-v))
      | .lognot => some (if v = 0 then 1 else 0)
  | .binary op l r =>
    match op with
    | .land =>
      match evalE env l with
      | none => none
      | some lv =>
        if lv = 0 then some 0
        else
          match evalE env r with
          | none => none
          | some rv => some (if rv = 0 then 0 else 1)
    | .lor =>
      match evalE env l with
      | none => none
      | some lv =>
        if lv ≠ 0 then some 1
        else
          match evalE env r with
          | none => none
          | some rv => some (if rv = 0 then 0 else 1)
    | op =>
      match evalE env l, evalE env r with
      | some lv, some rv => strictBinSem op lv rv
      | _, _ => none

/-- C2 counterexample: the expression `x + (1/0)` — which contains no
Call and whose original evaluation divides by zero — IS simplified to
`x` by the optimizer: `is_constant_expr (1/0)` is true and
`evaluate_constant_expr (1/0)` silently yields the default value 0, so
the `x + 0 = x` rule fires and the division by zero disappears.  This
refutes the claim's requirement that "x + (1/0) may not be simplified
to x". -/
def c2Expr : Expr :=
  Expr.binary BOp.add (Expr.var "x")
    (Expr.binary BOp.div (Expr.number 1) (Expr.number 0))

/-! ## C7: short-circuit lowering in the two code generators

A small operational model of the emitted RV32 instructions.  The
evaluation/loading of the two source operands (A and B) is abstracted
as `load rd i` with operand index `i = 0` for A and `i = 1` for B — for
`part_011` this is `loadOperand`, for `src/src/code_generator.cpp` it
stands for the code block emitted by `generate_expr`.  The executor
records the operand loads it performs, which is exactly "the generated
code evaluates B". -/

inductive AIns where
  | load (rd : String) (srcIdx : Nat)
  | li (rd : String) (imm : Int)
  | mv (rd rs : String)
  | snez (rd rs : String)
  | beqz (rs : String) (target : String)
  | bnez (rs : String) (target : String)
  | jmp (target : String)
  | label (name : String)

/-- Machine state: register file and the trace of operand loads. -/
structure AState where
  regs : String → Int
  loads : List Nat

def regSet (f : String → Int) (r : String) (v : Int) : String → Int :=
  fun x => if x = r then v else f x

/-- Index of a label instruction in the program (the program length if
absent; all programs below contain their jump targets). -/
def labelIdx : List AIns → String → Nat
  | [], _ => 0
  | .label n :: rest, l => if n = l then 0 else 1 + labelIdx rest l
  | _ :: rest, l => 1 + labelIdx rest l

/-- Fuel-bounded small-step executor; `ops i` is the runtime value of
operand `i`. -/
def runA (ops : Nat → Int) : Nat → List AIns → Nat → AState → AState
  | 0, _, _, st => st
  | fuel + 1, prog, pc, st =>
    match prog.get? pc with
    | none => st
    | some ins =>
      match ins with
      | .load rd i =>
        runA ops fuel prog (pc + 1) ⟨regSet st.regs rd (ops i), st.loads ++ [i]⟩
      | .li rd v => runA ops fuel prog (pc + 1) ⟨regSet st.regs rd v, st.loads⟩
      | .mv rd rs =>
        runA ops fuel prog (pc + 1) ⟨regSet st.regs rd (st.regs rs), st.loads⟩
      | .snez rd rs =>
        runA ops fuel prog (pc + 1)
          ⟨regSet st.regs rd (if st.regs rs ≠ 0 then 1 else 0), st.loads⟩
      | .beqz rs l =>
        if st.regs rs = 0 then runA ops fuel prog (labelIdx prog l) st
        else runA ops fuel prog (pc + 1) st
      | .bnez rs l =>
        if st.regs rs ≠ 0 then runA ops fuel prog (labelIdx prog l) st
        else runA ops fuel prog (pc + 1) st
      | .jmp l => runA ops fuel prog (labelIdx prog l) st
      | .label _ => runA ops fuel prog (pc + 1) st

/-- The block emitted by `part_011` `CodeGenerator::processBinaryOp` for
`BinOp(AND, result, A, B)` (lines 168-176): `result = t0`,
`left = t1`, `right = t2`; `endLabel = L0` is generated before
`shortCircuitLabel = L1`.  The right operand is loaded only past the
`beqz`, and the stored result is normalized with `snez`. -/
def emitAnd011 : List AIns :=
  [ .load "t1" 0
  , .beqz "t1" "L1"
  , .load "t2" 1
  , .snez "t0" "t2"
  , .jmp "L0"
  , .label "L1"
  , .li "t0" 0
  , .label "L0" ]

/-- The block emitted by `part_011` `processBinaryOp` for
`BinOp(OR, result, A, B)` (lines 177-185). -/
def emitOr011 : List AIns :=
  [ .load "t1" 0
  , .bnez "t1" "L1"
  , .load "t2" 1
  , .snez "t0" "t2"
  , .jmp "L0"
  , .label "L1"
  , .li "t0" 1
  , .label "L0" ]

/-- The block emitted by `src/src/code_generator.cpp`
`CodeGenerator::generate_short_circuit_and` (lines 406-428): when A is
non-zero the result register receives the RAW value of B via
`mv result, right` — no `snez` normalization. -/
def emitAndCG : List AIns :=
  [ .load "t1" 0
  , .beqz "t1" "and_false"
  , .load "t2" 1
  , .mv "t0" "t2"
  , .jmp "and_end"
  , .label "and_false"
  , .li "t0" 0
  , .label "and_end" ]

/-- The block emitted by `src/src/code_generator.cpp`
`CodeGenerator::generate_short_circuit_or` (lines 430-454). -/
def emitOrCG : List AIns :=
  [ .load "t1" 0
  , .bnez "t1" "or_true"
  , .load "t2" 1
  , .mv "t0" "t2"
  , .jmp "or_end"
  , .label "or_true"
  , .li "t0" 1
  , .label "or_end" ]

/-- Run a short-circuit block on operand values `a` (A) and `b` (B). -/
def runSC (prog : List AIns) (a b : Int) : AState :=
  runA (fun i => if i = 0 then a else b) 16 prog 0 ⟨fun _ => 0, []⟩

/-! ## C8: the post-emission peephole pass (part_011 lines 1034-1146)

`peepholeOptimize` works on the emitted text lines.  Lines are modelled
structurally (mnemonic plus operand fields, which the C++ recovers by
substring parsing); `other` covers every line matching none of the
parsed mnemonics.  The three registered patterns are tried per window
in the iteration order of `std::map<std::string, handler>` — keys
sorted: "li_compare" < "load_store_same" < "redundant_move".  A window
holds `min 3 (remaining)` lines; on a match the handler REPLACES the
whole window with its output (the C++ erases the window and inserts the
mutated vector), and scanning resumes past the replacement
(`i += window.size()`). -/

inductive AsmLine where
  | lw (reg mem : String)
  | sw (reg mem : String)
  | li (reg imm : String)
  | beq (r1 r2 target : String)
  | beqz (r target : String)
  | mv (dst src : String)
  | other (text : String)
deriving DecidableEq, Repr

/-- The "li_compare" pattern (lines 1057-1096): `li rT, 0; beq rA, rB, L`
with `rB = rT` (or `rA = rT`) becomes a single `beqz` — and the whole
window is replaced by it. -/
def pat_li_compare : List AsmLine → Option (List AsmLine)
  | .li reg imm :: .beq r1 r2 target :: _ =>
    if imm = "0" then
      if r2 = reg then some [.beqz r1 target]
      else if r1 = reg then some [.beqz r2 target]
      else none
    else none
  | _ => none

/-- The "load_store_same" pattern (lines 1036-1055): it matches a `lw`
FOLLOWED BY a `sw` to the same register and address (not the `sw; lw`
pair of the spec), and on a match it `clear()`s the window, deleting
both instructions (and any third line in the window). -/
def pat_load_store_same : List AsmLine → Option (List AsmLine)
  | .lw r m :: .sw r2 m2 :: _ => if r = r2 ∧ m = m2 then some [] else none
  | _ => none

/-- The "redundant_move" pattern (lines 1098-1113): `mv rX, rX` clears
the window. -/
def pat_redundant_move : List AsmLine → Option (List AsmLine)
  | .mv dst src :: _ => if dst = src then some [] else none
  | _ => none

/-- Try the patterns in map-key order on a window. -/
def tryPatterns (w : List AsmLine) : Option (List AsmLine) :=
  match pat_li_compare w with
  | some w2 => some w2
  | none =>
    match pat_load_store_same w with
    | some w2 => some w2
    | none => pat_redundant_move w

/-- One pass of the `for (i...)` scan (lines 1119-1146): `acc` holds the
lines before the scan position.  On a match the window is replaced and
the scan resumes after the replacement; otherwise the position
advances by one. -/
def peepScan (acc rest : List AsmLine) : List AsmLine × Bool :=
  match rest with
  | [] => (acc, false)
  | x :: rs =>
    match tryPatterns ((x :: rs).take 3) with
    | some w2 =>
      ((peepScan (acc ++ w2) ((x :: rs).drop (((x :: rs).take 3).length))).1, true)
    | none => peepScan (acc ++ [x]) rs
termination_by rest.length
decreasing_by
  · simp only [List.length_drop, List.length_take]
    simp only [List.length_cons]
    omega
  · simp

/-- The `while (changed)` driver (lines 1115-1146).  Every applied
pattern strictly shortens the line list (windows of length ≥ 1 are
replaced by at most one line, and `li_compare` needs a window of
length ≥ 2), so `length + 1` rounds always reach the fixed point. -/
def peepLoop : Nat → List AsmLine → List AsmLine
  | 0, instrs => instrs
  | fuel + 1, instrs =>
    match peepScan [] instrs with
    | (instrs2, true) => peepLoop fuel instrs2
    | (instrs2, false) => instrs2

def peepholeOptimize (instrs : List AsmLine) : List AsmLine :=
  peepLoop (instrs.length + 1) instrs

/-! ## C9: register allocation (part_011 lines 1216-1459)

The allocators consult an IR instruction only through
`IRAnalyzer::getDefinedVariables` and `IRAnalyzer::getUsedVariables`
(declared in `ir.h`; their bodies are not among the sources), so an
instruction is modelled as exactly that pair of variable lists.
`std::map`s keyed by variable name are modelled as association lists
kept sorted by key, matching the map's iteration order. -/

structure IRInstrA where
  defs : List String
  uses : List String

/-- The register descriptor fields the allocators read
(`struct Register`, codegen.h lines 28-35). -/
structure Register where
  name : String
  isCallerSaved : Bool
  isCalleeSaved : Bool
  isAllocatable : Bool
  isReserved : Bool

/-- Model of `std::map::find` on an association list. -/
def amFind {α : Type} : List (String × α) → String → Option α
  | [], _ => none
  | (k2, v) :: rest, k => if k = k2 then some v else amFind rest k

/-- Lexicographic (std::string operator<) comparison, written over
character codes so that it evaluates by kernel reduction. -/
def strLtChars : List Char → List Char → Bool
  | [], [] => false
  | [], _ :: _ => true
  | _ :: _, [] => false
  | c :: cs, d :: ds =>
    if c.toNat < d.toNat then true
    else if d.toNat < c.toNat then false
    else strLtChars cs ds

def strLt (a b : String) : Bool :=
  strLtChars a.data b.data

/-- Model of `std::map` insertion/overwrite, keeping the list sorted by key (the
map's iteration order). -/
def amInsert {α : Type} (m : List (String × α)) (k : String) (v : α) :
    List (String × α) :=
  match m with
  | [] => [(k, v)]
  | (k2, v2) :: rest =>
    if k = k2 then (k2, v) :: rest
    else if strLt k k2 then (k, v) :: (k2, v2) :: rest
    else (k2, v2) :: amInsert rest k v

/-- The per-instruction update of
`LinearScanRegisterAllocator::computeLiveIntervals` (lines 1273-1302)
and the identical lifetime loop of
`GraphColoringRegisterAllocator::buildInterferenceGraph` (lines
1325-1352): a definition at `i` creates `{i, i}` or lowers the start; a
use at `i` creates `{i, i}` and raises the end. -/
def processInstrLifetimes (m : List (String × Nat × Nat)) (i : Nat)
    (ins : IRInstrA) : List (String × Nat × Nat) :=
  let m1 := ins.defs.foldl (fun m v =>
    match amFind m v with
    | none => amInsert m v (i, i)
    | some (s, e) => amInsert m v (min s i, e)) m
  ins.uses.foldl (fun m v =>
    match amFind m v with
    | none => amInsert m v (i, i)
    | some (s, e) => amInsert m v (s, max e i)) m1

/-- The full lifetime map `var → (start, end)` over the instruction
list, in map (sorted-key) order. -/
def computeLifetimes (instrs : List IRInstrA) : List (String × Nat × Nat) :=
  (instrs.enum).foldl (fun m p => processInstrLifetimes m p.1 p.2) []

/-- Interval overlap as both allocators test it:
`max(start1, start2) <= min(end1, end2)` (lines 1013-1016, 1355-1360). -/
def overlaps (a b : Nat × Nat) : Bool :=
  max a.1 b.1 ≤ min a.2 b.2

/-- The neighbor set of one variable in the interference graph: every
OTHER lifetime-map entry whose interval overlaps. -/
def neighborsOf (lt : List (String × Nat × Nat)) (v : String)
    (iv : Nat × Nat) : List String :=
  (lt.filter (fun q => q.1 ≠ v ∧ overlaps iv q.2)).map (fun q => q.1)

/-- Model of `GraphColoringRegisterAllocator::buildInterferenceGraph` (lines
1317-1377): adjacency lists in map order. -/
def interfGraph (lt : List (String × Nat × Nat)) :
    List (String × List String) :=
  lt.map (fun p => (p.1, neighborsOf lt p.1 p.2))

/-- Remove a node from the work graph: its entry and its occurrences in
every neighbor list (`GraphColoringRegisterAllocator::simplify`, lines
1404-1409). -/
def graphErase (g : List (String × List String)) (v : String) :
    List (String × List String) :=
  (g.filter (fun p => p.1 ≠ v)).map (fun p => (p.1, p.2.filter (fun u => u ≠ v)))

/-- The minimum-degree selection of `simplify` (lines 1385-1392):
iterate in map order, keeping the first node of strictly smaller
degree; the first node always beats the initial INT_MAX. -/
def pickMin (g : List (String × List String)) : Option String :=
  (g.foldl (fun (acc : Option (String × Nat)) p =>
    match acc with
    | none => some (p.1, p.2.length)
    | some (n, d) =>
      if p.2.length < d then some (p.1, p.2.length) else some (n, d)) none).map
    (fun q => q.1)

/-- The elimination loop of `simplify` in removal order; fuel bounds the
iterations (each round erases the picked node). -/
def simplifyGCGo : Nat → List (String × List String) → List String
  | 0, _ => []
  | fuel + 1, g =>
    match pickMin g with
    | none => []
    | some n => n :: simplifyGCGo fuel (graphErase g n)

/-- Model of `GraphColoringRegisterAllocator::simplify` (lines 1379-1412): the
removal order is reversed before coloring. -/
def simplifyGC (g : List (String × List String)) : List String :=
  (simplifyGCGo g.length g).reverse

/-- Model of `GraphColoringRegisterAllocator::color` (lines 1420-1459): walk the
simplified order; skip variables absent from the original graph; gather
the colors of already-colored neighbors; assign the first register not
among them, or none. -/
def colorGo (g : List (String × List String)) (regNames : List String) :
    List String → (String → Option String) → (String → Option String)
  | [], alloc => alloc
  | v :: rest, alloc =>
    match amFind g v with
    | none => colorGo g regNames rest alloc
    | some ns =>
      let usedColors := ns.filterMap alloc
      match regNames.find? (fun rg => !usedColors.contains rg) with
      | some rg =>
        colorGo g regNames rest (fun x => if x = v then some rg else alloc x)
      | none => colorGo g regNames rest alloc

/-- Model of `GraphColoringRegisterAllocator::allocate` (lines 1306-1315). -/
def gcAllocate (instrs : List IRInstrA) (availableRegs : List Register) :
    String → Option String :=
  let lt := computeLifetimes instrs
  let g := interfGraph lt
  let regNames :=
    (availableRegs.filter (fun r => r.isAllocatable && !r.isReserved)).map
      (fun r => r.name)
  colorGo g regNames (simplifyGC g) (fun _ => none)

/-- Linear-scan state: the allocation map, the free-register vector
(back = last element) and the active map (sorted by variable). -/
structure LSState where
  allocation : String → Option String
  freeRegs : List String
  active : List (String × (Nat × Nat) × String)

/-- Expiry step of `LinearScanRegisterAllocator::allocate` (lines
1233-1243): active intervals with `end < current.start` release their
registers (pushed in map order) and leave the active set. -/
def lsExpire (curStart : Nat) (st : LSState) : LSState :=
  { st with
    freeRegs := st.freeRegs ++
      (st.active.filter (fun p => p.2.1.2 < curStart)).map (fun p => p.2.2)
    active := st.active.filter (fun p => ¬(p.2.1.2 < curStart)) }

/-- One interval of `LinearScanRegisterAllocator::allocate` (lines
1231-1270).  With a free register: take `freeRegs.back()`.  Otherwise
the SPILL PATH (lines 1245-1262): the active interval with the latest
end (first such in map order) is the victim; when its end exceeds the
current interval's, the current variable is allocated the victim's
register, that same register is also pushed onto the free list, and the
victim leaves the active set — but the victim's entry in `allocation`
is never removed. -/
def lsHandle (st : LSState) (iv : String × Nat × Nat) : LSState :=
  let st := lsExpire iv.2.1 st
  match st.freeRegs.reverse with
  | [] =>
    let victim := st.active.foldl
      (fun (acc : Option (String × (Nat × Nat) × String)) p =>
        match acc with
        | none => some p
        | some q => if p.2.1.2 > q.2.1.2 then some p else some q) none
    match victim with
    | none => st
    | some q =>
      if q.2.1.2 > iv.2.2 then
        { allocation := fun x => if x = iv.1 then some q.2.2 else st.allocation x
        , freeRegs := st.freeRegs ++ [q.2.2]
        , active := amInsert (st.active.filter (fun p => p.1 ≠ q.1)) iv.1
            ((iv.2.1, iv.2.2), q.2.2) }
      else st
  | rg :: restRev =>
    { allocation := fun x => if x = iv.1 then some rg else st.allocation x
    , freeRegs := restRev.reverse
    , active := amInsert st.active iv.1 ((iv.2.1, iv.2.2), rg) }

/-- Insertion sort by interval start (strictly-less comparison as in
`LiveInterval::operator<`; ties keep map order — one valid outcome of
the unstable `std::sort`). -/
def insertByStart (x : String × Nat × Nat) :
    List (String × Nat × Nat) → List (String × Nat × Nat)
  | [] => [x]
  | y :: rest =>
    if x.2.1 < y.2.1 then x :: y :: rest else y :: insertByStart x rest

def sortByStart (l : List (String × Nat × Nat)) : List (String × Nat × Nat) :=
  l.foldr insertByStart []

/-- Model of `LinearScanRegisterAllocator::allocate` (lines 1215-1270): the free
pool is the callee-saved allocatable registers other than fp/s0, in
declaration order. -/
def lsAllocate (instrs : List IRInstrA) (availableRegs : List Register) :
    String → Option String :=
  let intervals := sortByStart (computeLifetimes instrs)
  let free := (availableRegs.filter
      (fun r => r.isCalleeSaved && r.name ≠ "fp" && r.name ≠ "s0")).map
    (fun r => r.name)
  (intervals.foldl lsHandle ⟨fun _ => none, free, []⟩).allocation

/-- Four abstract IR instructions giving lifetimes a = [0,3] and
b = [1,2]: def a; def b; use b; use a. -/
def c9Instrs : List IRInstrA :=
  [ ⟨["a"], []⟩, ⟨["b"], []⟩, ⟨[], ["b"]⟩, ⟨[], ["a"]⟩ ]

/-- A register file with a single allocatable callee-saved register. -/
def c9OneReg : List Register :=
  [⟨"s1", false, true, true, false⟩]

/-- Two allocatable, non-reserved, callee-saved registers. -/
def c9TwoRegs : List Register :=
  [⟨"s1", false, true, true, false⟩, ⟨"s2", false, true, true, false⟩]

/-- The coloring invariant preserved by `colorGo`: distinct variables
with overlapping lifetime-map intervals never share an assigned
register. -/
def ColorInv (lt : List (String × Nat × Nat))
    (alloc : String → Option String) : Prop :=
  ∀ u v iu iv ru rv, u ≠ v →
    amFind lt u = some iu → amFind lt v = some iv →
    overlaps iu iv = true →
    alloc u = some ru → alloc v = some rv → ru ≠ rv

/-! ## C10: the lexer (part_011 lines 1494-1733)

`Lexer::tokenize` and its helpers, modelled over the source as a
character list with the `(position, line, column)` state.  Character
classes are written over `Char.toNat` codes (`isalpha`/`isdigit`/
`isalnum` on ASCII).  Each loop of the C++ is a well-founded recursion
on `source.length - position`, which is exactly the C++ termination
argument: every iteration advances `position`.  In `scanToken` the C++
reads one character, backs up (`position--; column--`) and calls
`scanIdentifier`/`scanNumber`; the model dispatches on the same
character without the back-up dance, which is net-position-identical. -/

inductive TokType where
  | kwInt | kwVoid | kwIf | kwElse | kwWhile | kwBreak | kwContinue | kwReturn
  | identifier | number
  | lparen | rparen | lbrace | rbrace | semicolon | comma
  | plus | minus | multiply | divide | modulo
  | assign | eqT | neqT | notT | ltT | leT | gtT | geT | andT | orT
  | unknown | endOfFile
deriving DecidableEq, Repr

structure Token where
  type : TokType
  lexeme : String
  line : Nat
  column : Nat
deriving DecidableEq, Repr

/-- The lexer position state (`position`, `line`, `column`). -/
structure LexPos where
  position : Nat
  line : Nat
  column : Nat
deriving DecidableEq, Repr

def nulChar : Char := Char.ofNat 0

/-- Model of `Lexer::peek(offset)`: the character at `position + offset`, or NUL
past the end. -/
def peekC (src : List Char) (st : LexPos) (offset : Nat) : Char :=
  if st.position + offset ≥ src.length then nulChar
  else src.getD (st.position + offset) nulChar

/-- Model of `Lexer::advance()`: consume one character, maintaining line and
column. -/
def advanceP (src : List Char) (st : LexPos) : LexPos :=
  if (src.getD st.position nulChar).toNat = 10 then
    ⟨st.position + 1, st.line + 1, 1⟩
  else
    ⟨st.position + 1, st.line, st.column + 1⟩

def isAlphaC (c : Char) : Bool :=
  (97 ≤ c.toNat && c.toNat ≤ 122) || (65 ≤ c.toNat && c.toNat ≤ 90)

def isDigitC (c : Char) : Bool :=
  48 ≤ c.toNat && c.toNat ≤ 57

def isIdentStartC (c : Char) : Bool :=
  isAlphaC c || c.toNat = 95

def isIdentC (c : Char) : Bool :=
  isAlphaC c || isDigitC c || c.toNat = 95

def advanceP_position (src : List Char) (st : LexPos) :
    (advanceP src st).position = st.position + 1 := by
  unfold advanceP
  split <;> rfl

/-- The `//`-comment loop (`skipComment`, lines 1702-1706). -/
def skipLineComment (src : List Char) (st : LexPos) : LexPos :=
  if h : st.position < src.length ∧ (src.getD st.position nulChar).toNat ≠ 10 then
    skipLineComment src (advanceP src st)
  else st
termination_by src.length - st.position
decreasing_by
  rw [advanceP_position]
  omega

/-- The `/* ... */`-comment loop (`skipComment`, lines 1707-1724):
consumes until `*/` (inclusive) or the end of input — an unterminated
block comment simply runs to the end. -/
def skipBlockComment (src : List Char) (st : LexPos) : LexPos :=
  if h : st.position < src.length then
    if (peekC src st 0).toNat = 42 ∧ (peekC src st 1).toNat = 47 then
      ⟨st.position + 2, st.line, st.column + 2⟩
    else if (peekC src st 0).toNat = 10 then
      skipBlockComment src ⟨st.position + 1, st.line + 1, 1⟩
    else
      skipBlockComment src ⟨st.position + 1, st.line, st.column + 1⟩
  else st
termination_by src.length - st.position
decreasing_by
  all_goals try simp only [LexPos.position]
  all_goals omega

/-- Model of `Lexer::skipComment` (lines 1697-1726). -/
def skipComment (src : List Char) (st : LexPos) : LexPos :=
  if (peekC src st 0).toNat = 47 then
    if (peekC src st 1).toNat = 47 then
      skipLineComment src ⟨st.position + 2, st.line, st.column + 2⟩
    else if (peekC src st 1).toNat = 42 then
      skipBlockComment src ⟨st.position + 2, st.line, st.column + 2⟩
    else st
  else st

def skipLineComment_ge (src : List Char) (st : LexPos) :
    st.position ≤ (skipLineComment src st).position := by
  unfold skipLineComment
  split
  · have h2 := skipLineComment_ge src (advanceP src st)
    rw [advanceP_position] at h2
    omega
  · exact Nat.le_refl _
termination_by src.length - st.position
decreasing_by
  rw [advanceP_position]
  omega

def skipBlockComment_ge (src : List Char) (st : LexPos) :
    st.position ≤ (skipBlockComment src st).position := by
  unfold skipBlockComment
  split
  · split
    · simp only [LexPos.position]
      omega
    · split
      · have h2 := skipBlockComment_ge src ⟨st.position + 1, st.line + 1, 1⟩
        simp only [LexPos.position] at h2
        omega
      · have h2 := skipBlockComment_ge src ⟨st.position + 1, st.line, st.column + 1⟩
        simp only [LexPos.position] at h2
        omega
  · exact Nat.le_refl _
termination_by src.length - st.position
decreasing_by
  all_goals try simp only [LexPos.position]
  all_goals omega

def skipComment_gt (src : List Char) (st : LexPos)
    (h : (peekC src st 0).toNat = 47)
    (h2 : (peekC src st 1).toNat = 47 ∨ (peekC src st 1).toNat = 42) :
    st.position < (skipComment src st).position := by
  unfold skipComment
  rw [if_pos h]
  rcases h2 with h2 | h2
  · rw [if_pos h2]
    have h3 := skipLineComment_ge src ⟨st.position + 2, st.line, st.column + 2⟩
    simp only [LexPos.position] at h3
    omega
  · by_cases h4 : (peekC src st 1).toNat = 47
    · rw [if_pos h4]
      have h3 := skipLineComment_ge src ⟨st.position + 2, st.line, st.column + 2⟩
      simp only [LexPos.position] at h3
      omega
    · rw [if_neg h4, if_pos h2]
      have h3 := skipBlockComment_ge src ⟨st.position + 2, st.line, st.column + 2⟩
      simp only [LexPos.position] at h3
      omega

/-- Model of `Lexer::skipWhitespace` (lines 1675-1695): spaces, tabs, carriage
returns, newlines, and comments introduced by `//` or `/*`; anything
else (a lone `/` included) stops the loop. -/
def skipWhitespace (src : List Char) (st : LexPos) : LexPos :=
  if h : st.position < src.length then
    if hws : (src.getD st.position nulChar).toNat = 32 ∨
        (src.getD st.position nulChar).toNat = 9 ∨
        (src.getD st.position nulChar).toNat = 13 ∨
        (src.getD st.position nulChar).toNat = 10 then
      skipWhitespace src (advanceP src st)
    else if hcm : (src.getD st.position nulChar).toNat = 47 ∧
        ((peekC src st 1).toNat = 47 ∨ (peekC src st 1).toNat = 42) then
      skipWhitespace src (skipComment src st)
    else st
  else st
termination_by src.length - st.position
decreasing_by
  all_goals try rw [advanceP_position]
  all_goals first
    | omega
    | (have hpk : (peekC src st 0).toNat = 47 := by
         unfold peekC
         rw [if_neg (by omega)]
         simpa using hcm.1
       have h3 := skipComment_gt src st hpk hcm.2
       omega)

def skipWhitespace_ge (src : List Char) (st : LexPos) :
    st.position ≤ (skipWhitespace src st).position := by
  unfold skipWhitespace
  split
  · split
    · have h2 := skipWhitespace_ge src (advanceP src st)
      rw [advanceP_position] at h2
      omega
    · split
      · rename_i h hws hcm
        have hpk : (peekC src st 0).toNat = 47 := by
          unfold peekC
          rw [if_neg (by omega)]
          simpa using hcm.1
        have h3 := skipComment_gt src st hpk hcm.2
        have h4 := skipWhitespace_ge src (skipComment src st)
        omega
      · exact Nat.le_refl _
  · exact Nat.le_refl _
termination_by src.length - st.position
decreasing_by
  all_goals try rw [advanceP_position]
  all_goals omega

/-- The identifier-extension loop of `scanIdentifier` (lines 1598-1600). -/
def identLoop (src : List Char) (st : LexPos) : LexPos :=
  if h : st.position < src.length ∧ isIdentC (src.getD st.position nulChar) then
    identLoop src (advanceP src st)
  else st
termination_by src.length - st.position
decreasing_by
  rw [advanceP_position]
  omega

/-- The digit loop of `scanNumber` (lines 1621-1623). -/
def digitLoop (src : List Char) (st : LexPos) : LexPos :=
  if h : st.position < src.length ∧ isDigitC (src.getD st.position nulChar) then
    digitLoop src (advanceP src st)
  else st
termination_by src.length - st.position
decreasing_by
  rw [advanceP_position]
  omega

def identLoop_ge (src : List Char) (st : LexPos) :
    st.position ≤ (identLoop src st).position := by
  unfold identLoop
  split
  · have h2 := identLoop_ge src (advanceP src st)
    rw [advanceP_position] at h2
    omega
  · exact Nat.le_refl _
termination_by src.length - st.position
decreasing_by
  rw [advanceP_position]
  omega

def digitLoop_ge (src : List Char) (st : LexPos) :
    st.position ≤ (digitLoop src st).position := by
  unfold digitLoop
  split
  · have h2 := digitLoop_ge src (advanceP src st)
    rw [advanceP_position] at h2
    omega
  · exact Nat.le_refl _
termination_by src.length - st.position
decreasing_by
  rw [advanceP_position]
  omega

/-- The keyword table of the `Lexer` constructor (lines 1503-1510). -/
def keywordType (s : String) : TokType :=
  if s = "int" then TokType.kwInt
  else if s = "void" then TokType.kwVoid
  else if s = "if" then TokType.kwIf
  else if s = "else" then TokType.kwElse
  else if s = "while" then TokType.kwWhile
  else if s = "break" then TokType.kwBreak
  else if s = "continue" then TokType.kwContinue
  else if s = "return" then TokType.kwReturn
  else TokType.identifier

/-- Model of `Lexer::scanIdentifier` (lines 1584-1604). -/
def scanIdentifier (src : List Char) (st : LexPos) : Token × LexPos :=
  let st1 := if isIdentStartC (peekC src st 0) then advanceP src st else st
  let st2 := identLoop src st1
  let lexeme := String.mk ((src.drop st.position).take (st2.position - st.position))
  (⟨keywordType lexeme, lexeme, st.line, st.column⟩, st2)

/-- Model of `Lexer::scanNumber` (lines 1606-1625); the leading `-` check can
never fire because `scanToken` dispatches here only on a digit. -/
def scanNumber (src : List Char) (st : LexPos) : Token × LexPos :=
  let st1 := if (peekC src st 0).toNat = 45 then advanceP src st else st
  let st2 := digitLoop src st1
  let lexeme := String.mk ((src.drop st.position).take (st2.position - st.position))
  (⟨TokType.number, lexeme, st.line, st.column⟩, st2)

/-- The single/double-character operator dispatch of `Lexer::scanToken`
(lines 1527-1581): `st1` is the state after consuming `c`. -/
def scanOperator (src : List Char) (c : Char) (st1 : LexPos) : Token × LexPos :=
  let tLine := st1.line
  let tCol := st1.column - 1
  let two := fun (t : TokType) (s : String) (want : Nat) (t1 : TokType) (s1 : String) =>
    if (peekC src st1 0).toNat = want then
      (Token.mk t s tLine tCol, advanceP src st1)
    else (Token.mk t1 s1 tLine tCol, st1)
  match c.toNat with
  | 40 => (Token.mk TokType.lparen "(" tLine tCol, st1)
  | 41 => (Token.mk TokType.rparen ")" tLine tCol, st1)
  | 123 => (Token.mk TokType.lbrace "\x7b" tLine tCol, st1)
  | 125 => (Token.mk TokType.rbrace "\x7d" tLine tCol, st1)
  | 59 => (Token.mk TokType.semicolon ";" tLine tCol, st1)
  | 44 => (Token.mk TokType.comma "," tLine tCol, st1)
  | 43 => (Token.mk TokType.plus "+" tLine tCol, st1)
  | 45 => (Token.mk TokType.minus "-" tLine tCol, st1)
  | 42 => (Token.mk TokType.multiply "*" tLine tCol, st1)
  | 37 => (Token.mk TokType.modulo "%" tLine tCol, st1)
  | 47 => (Token.mk TokType.divide "/" tLine tCol, st1)
  | 61 => two TokType.eqT "==" 61 TokType.assign "="
  | 33 => two TokType.neqT "!=" 61 TokType.notT "!"
  | 60 => two TokType.leT "<=" 61 TokType.ltT "<"
  | 62 => two TokType.geT ">=" 61 TokType.gtT ">"
  | 38 => two TokType.andT "&&" 38 TokType.unknown "&"
  | 124 => two TokType.orT "||" 124 TokType.unknown "|"
  | _ => (Token.mk TokType.unknown (String.mk [c]) tLine tCol, st1)

/-- Model of `Lexer::scanToken` (lines 1509-1581). -/
def scanToken (src : List Char) (st : LexPos) : Token × LexPos :=
  if isIdentStartC (src.getD st.position nulChar) then scanIdentifier src st
  else if isDigitC (src.getD st.position nulChar) then scanNumber src st
  else scanOperator src (src.getD st.position nulChar) (advanceP src st)

def scanToken_gt (src : List Char) (st : LexPos)
    (h : st.position < src.length) :
    st.position < (scanToken src st).2.position := by
  unfold scanToken
  split
  · rename_i hid
    unfold scanIdentifier
    simp only []
    have hpk : peekC src st 0 = src.getD st.position nulChar := by
      unfold peekC
      rw [if_neg (by omega)]
      simp
    rw [hpk, if_pos hid]
    have h2 := identLoop_ge src (advanceP src st)
    rw [advanceP_position] at h2
    omega
  · split
    · rename_i hid hdig
      unfold scanNumber
      simp only []
      have h2 : st.position ≤
          (if (peekC src st 0).toNat = 45 then advanceP src st else st).position := by
        split
        · rw [advanceP_position]; omega
        · exact Nat.le_refl _
      have h3 := digitLoop_ge src
        (if (peekC src st 0).toNat = 45 then advanceP src st else st)
      have h4 : isDigitC (peekC src st 0) = true := by
        have hpk : peekC src st 0 = src.getD st.position nulChar := by
          unfold peekC
          rw [if_neg (by omega)]
          simp
        rw [hpk]
        exact hdig
      have h5 : ¬((peekC src st 0).toNat = 45) := by
        simp only [isDigitC, Bool.and_eq_true, decide_eq_true_eq] at h4
        omega
      rw [if_neg h5] at h2 h3 ⊢
      unfold digitLoop
      rw [dif_pos ⟨h, by
        have hpk2 : peekC src st 0 = src.getD st.position nulChar := by
          unfold peekC
          rw [if_neg (by omega)]
          simp
        rw [← hpk2]; exact h4⟩]
      have h6 := digitLoop_ge src (advanceP src st)
      rw [advanceP_position] at h6
      omega
    · unfold scanOperator
      have hadv : (advanceP src st).position = st.position + 1 :=
        advanceP_position src st
      split <;>
        first
          | (simp only []; omega)
          | (simp only []
             split <;> simp only [] <;>
               first
                 | (rw [advanceP_position]; omega)
                 | omega)

/-- The token loop of `Lexer::tokenize` (lines 1495-1503). -/
def tokenizeLoop (src : List Char) (st : LexPos) (acc : List Token) :
    List Token × LexPos :=
  if h : st.position < src.length then
    let st2 := skipWhitespace src st
    if h2 : st2.position < src.length then
      let sc := scanToken src st2
      tokenizeLoop src sc.2 (acc ++ [sc.1])
    else (acc, st2)
  else (acc, st)
termination_by src.length - st.position
decreasing_by
  have hge := skipWhitespace_ge src st
  have hgt := scanToken_gt src (skipWhitespace src st) h2
  omega

/-- Model of `Lexer::tokenize` (lines 1494-1507): scan tokens to the end of
input, then append the END_OF_FILE token.  The function is total by
well-founded recursion on the remaining input — the termination claim. -/
def tokenize (src : List Char) : List Token :=
  let r := tokenizeLoop src ⟨0, 1, 1⟩ []
  r.1 ++ [⟨TokType.endOfFile, "", r.2.line, r.2.column⟩]

/-! ## Theorems -/

theorem wrap_lb (n : Int) : -2 ^ 31 ≤ wrap n := by
  have h : 0 ≤ (n + 2 ^ 31) % 2 ^ 32 := Int.emod_nonneg _ (by norm_num)
  unfold wrap; omega

theorem wrap_ub (n : Int) : wrap n < 2 ^ 31 := by
  have h : (n + 2 ^ 31) % 2 ^ 32 < 2 ^ 32 := Int.emod_lt_of_pos _ (by norm_num)
  unfold wrap; omega

theorem wrap_of_range (n : Int) (h1 : -2 ^ 31 ≤ n) (h2 : n < 2 ^ 31) :
    wrap n = n := by
  unfold wrap
  rw [Int.emod_eq_of_lt (by omega) (by omega)]
  omega

theorem wrap_wrap (n : Int) : wrap (wrap n) = wrap n :=
  wrap_of_range _ (wrap_lb n) (wrap_ub n)

/-- Model of `wrap (-(wrap (-a))) = a` for an in-range `a`: double negation under
wraparound is the identity even at `-2^31`. -/
theorem wrap_neg_neg (a : Int) (h1 : -2 ^ 31 ≤ a) (h2 : a < 2 ^ 31) :
    wrap (-(wrap (-a))) = a := by
  rcases eq_or_ne a (-2 ^ 31) with rfl | hne
  · have h : wrap (-(-2 ^ 31 : Int)) = -2 ^ 31 := by unfold wrap; decide
    rw [h]; unfold wrap; decide
  · have hr : wrap (-a) = -a := wrap_of_range (-a) (by omega) (by omega)
    rw [hr]
    have : -(-a) = a := by omega
    rw [this]
    exact wrap_of_range a h1 h2

mutual
theorem has_return_imp_contains (s : Stmt)
    (h : has_return_statement s = true) : containsReturn s = true := by
  cases s with
  | ret v => simp [containsReturn]
  | block ss =>
    simp only [has_return_statement] at h
    simp only [containsReturn]
    exact has_return_imp_containsList ss h
  | ifS c t e =>
    cases e with
    | none => simp [has_return_statement] at h
    | some e =>
      simp only [has_return_statement, Bool.and_eq_true] at h
      simp only [containsReturn, Bool.or_eq_true]
      exact Or.inl (has_return_imp_contains t h.1)
  | empty => simp [has_return_statement] at h
  | exprStmt e => simp [has_return_statement] at h
  | varDecl n i => simp [has_return_statement] at h
  | assign n v => simp [has_return_statement] at h
  | whileS c b => simp [has_return_statement] at h
  | breakS => simp [has_return_statement] at h
  | continueS => simp [has_return_statement] at h

theorem has_return_imp_containsList (ss : List Stmt)
    (h : has_return_statementList ss = true) : containsReturnList ss = true := by
  cases ss with
  | nil => simp [has_return_statementList] at h
  | cons s rest =>
    simp only [has_return_statementList, Bool.or_eq_true] at h
    simp only [containsReturnList, Bool.or_eq_true]
    cases h with
    | inl h => exact Or.inl (has_return_imp_contains s h)
    | inr h => exact Or.inr (has_return_imp_containsList rest h)
end

/-- C1 counterexample: on `int f(int c) { if (c) { return 0; } }` no
control-flow path through the body returns in the claim's structural
sense, yet neither analyzer variant reports a missing-return error — the
any-Return flag is already set by the return inside the `if`.  This
refutes the claimed "reports ... if and only if some path fails to
return" and, in particular, the claim that an int function whose only
Return sits inside one arm of an else-less If is rejected. -/
theorem c1_counterexample :
    pathReturns c1Func.body = false ∧
    missingReturnReported c1Func = false ∧
    missingReturnReportedP1 c1Func = false := by
  refine ⟨rfl, ?_, rfl⟩
  simp [missingReturnReported, c1Func, containsReturn, containsReturnList]

/-- C1 amended: the analyzers report a missing-return error for a
function exactly when its return type is `int` and its body contains NO
`Return` statement anywhere (a purely syntactic occurrence check, not a
per-path analysis).  Both variants agree; TOYC2's structural
`has_return_statement` fallback never changes the outcome because it can
only be true when a Return occurs in the body. -/
theorem c1_amended (f : FuncDef) :
    (missingReturnReported f = true ↔
      (f.returnType = Ty.int ∧ containsReturn f.body = false)) ∧
    missingReturnReportedP1 f = missingReturnReported f := by
  constructor
  · constructor
    · intro h
      simp only [missingReturnReported, Bool.and_eq_true, beq_iff_eq,
        Bool.not_eq_true'] at h
      exact ⟨h.1.1, h.1.2⟩
    · rintro ⟨h1, h2⟩
      have h3 : has_return_statement f.body = false := by
        cases hh : has_return_statement f.body with
        | false => rfl
        | true => rw [has_return_imp_contains _ hh] at h2; cases h2
      simp [missingReturnReported, h1, h2, h3]
  · have h4 : (f.returnType != Ty.void) = (f.returnType == Ty.int) := by
      cases f.returnType <;> rfl
    cases hc : containsReturn f.body with
    | true => simp [missingReturnReported, missingReturnReportedP1, h4, hc]
    | false =>
      have h3 : has_return_statement f.body = false := by
        cases hh : has_return_statement f.body with
        | false => rfl
        | true => rw [has_return_imp_contains _ hh] at hc; cases hc
      simp [missingReturnReported, missingReturnReportedP1, h4, hc, h3]

/-- Witness for `c1_amended` at the concrete function `c1Func`. -/
theorem c1_amended_witness :
    missingReturnReportedP1 c1Func = missingReturnReported c1Func :=
  (c1_amended c1Func).2

/-- C3 counterexample: in the part_001 analyzer the call from `f` to the
later-defined `g` is reported as an undefined function, refuting the
claim that every top-level function is registered in a pre-pass before
any body is analyzed.  (The TOYC2 analyzer accepts the same unit.) -/
theorem c3_counterexample :
    undefCallsP1 c3Unit = [("f", "g")] ∧ undefCallsT2 c3Unit = [] := by
  constructor <;> rfl

mutual
theorem p1VisitE_sound (table : List String) (cur : String) (e : Expr)
    (c : String) (hc : c ∈ p1VisitE table cur e) : c ∉ table ∧ c ≠ cur := by
  cases e with
  | number v => simp [p1VisitE] at hc
  | var n => simp [p1VisitE] at hc
  | unary op e =>
    exact p1VisitE_sound table cur e c (by simpa [p1VisitE] using hc)
  | binary op l r =>
    simp only [p1VisitE, List.mem_append] at hc
    cases hc with
    | inl h => exact p1VisitE_sound table cur l c h
    | inr h => exact p1VisitE_sound table cur r c h
  | call f args =>
    simp only [p1VisitE] at hc
    by_cases hres : (!table.contains f && f != cur) = true
    · rw [if_pos hres] at hc
      simp only [List.mem_singleton] at hc
      subst hc
      simp only [Bool.and_eq_true, Bool.not_eq_true', bne_iff_ne] at hres
      refine ⟨fun hm => ?_, hres.2⟩
      simp [List.elem_iff, hm] at hres
    · rw [if_neg hres] at hc
      exact p1VisitEList_sound table cur args c hc

theorem p1VisitEList_sound (table : List String) (cur : String)
    (es : List Expr) (c : String) (hc : c ∈ p1VisitEList table cur es) :
    c ∉ table ∧ c ≠ cur := by
  cases es with
  | nil => simp [p1VisitEList] at hc
  | cons e rest =>
    simp only [p1VisitEList, List.mem_append] at hc
    cases hc with
    | inl h => exact p1VisitE_sound table cur e c h
    | inr h => exact p1VisitEList_sound table cur rest c h
end

mutual
theorem p1VisitS_sound (table : List String) (cur : String)
    (scopes : List (List String)) (s : Stmt) (c : String)
    (hc : c ∈ (p1VisitS table cur scopes s).1) : c ∉ table ∧ c ≠ cur := by
  cases s with
  | empty => simp [p1VisitS] at hc
  | exprStmt e =>
    exact p1VisitE_sound table cur e c (by simpa [p1VisitS] using hc)
  | block ss =>
    exact p1VisitSList_sound table cur ([] :: scopes) ss c
      (by simpa [p1VisitS] using hc)
  | varDecl n i =>
    exact p1VisitE_sound table cur i c (by simpa [p1VisitS] using hc)
  | assign n v =>
    simp only [p1VisitS] at hc
    by_cases hf : p1Find scopes n = true
    · rw [if_pos hf] at hc
      exact p1VisitE_sound table cur v c (by simpa using hc)
    · rw [if_neg hf] at hc
      simp at hc
  | ifS cnd t els =>
    cases els with
    | none =>
      simp only [p1VisitS, List.mem_append] at hc
      rcases hc with h | h
      · exact p1VisitE_sound table cur cnd c h
      · exact p1VisitS_sound table cur scopes t c h
    | some e =>
      simp only [p1VisitS, List.mem_append] at hc
      rcases hc with (h | h) | h
      · exact p1VisitE_sound table cur cnd c h
      · exact p1VisitS_sound table cur scopes t c h
      · exact p1VisitS_sound table cur (p1VisitS table cur scopes t).2 e c h
  | whileS cnd b =>
    simp only [p1VisitS, List.mem_append] at hc
    rcases hc with h | h
    · exact p1VisitE_sound table cur cnd c h
    · exact p1VisitS_sound table cur scopes b c h
  | breakS => simp [p1VisitS] at hc
  | continueS => simp [p1VisitS] at hc
  | ret v =>
    cases v with
    | none => simp [p1VisitS] at hc
    | some v =>
      exact p1VisitE_sound table cur v c (by simpa [p1VisitS] using hc)

theorem p1VisitSList_sound (table : List String) (cur : String)
    (scopes : List (List String)) (ss : List Stmt) (c : String)
    (hc : c ∈ (p1VisitSList table cur scopes ss).1) : c ∉ table ∧ c ≠ cur := by
  cases ss with
  | nil => simp [p1VisitSList] at hc
  | cons s rest =>
    simp only [p1VisitSList, List.mem_append] at hc
    rcases hc with h | h
    · exact p1VisitS_sound table cur scopes s c h
    · exact p1VisitSList_sound table cur
        (p1VisitS table cur scopes s).2 rest c h
end

/-- Soundness of the part_001 report list: every reported (caller,
callee) pair names a function of the unit as caller, and a callee that
was registered neither before the walk started, nor by an earlier
definition, nor by the caller itself. -/
theorem undefCallsP1Go_sound (fs : List FuncDef) :
    ∀ table caller callee, (caller, callee) ∈ undefCallsP1Go table fs →
      ∃ pre f post, fs = pre ++ f :: post ∧ caller = f.name ∧
        callee ∉ table ∧ callee ∉ pre.map FuncDef.name ∧ callee ≠ f.name := by
  induction fs with
  | nil => intro table caller callee h; simp [undefCallsP1Go] at h
  | cons f rest ih =>
    intro table caller callee h
    simp only [undefCallsP1Go, List.mem_append] at h
    rcases h with h | h
    · simp only [p1VisitFunc, List.mem_map] at h
      obtain ⟨c, hc, heq⟩ := h
      rw [Prod.mk.injEq] at heq
      have hs := p1VisitS_sound (f.name :: table) f.name
        [f.name :: f.params] f.body c hc
      refine ⟨[], f, rest, rfl, heq.1.symm, ?_, by simp, ?_⟩
      · rw [← heq.2]
        exact fun hm => hs.1 (List.mem_cons_of_mem _ hm)
      · rw [← heq.2]; exact hs.2
    · obtain ⟨pre, g, post, hsplit, hcaller, ht, hpre, hne⟩ :=
        ih (f.name :: table) caller callee h
      refine ⟨f :: pre, g, post, by rw [hsplit]; rw [List.cons_append], hcaller, ?_, ?_, hne⟩
      · exact fun hm => ht (List.mem_cons_of_mem _ hm)
      · simp only [List.map_cons, List.mem_cons]
        rintro (h1 | h1)
        · exact ht (by rw [h1]; exact List.mem_cons_self _ _)
        · exact hpre h1

mutual
theorem t2VisitE_empty (table : List (String × Nat)) (e : Expr)
    (h : ∀ c ∈ calleeNamesE e, (lookupArity table c).isSome = true) :
    t2VisitE table e = [] := by
  cases e with
  | number v => rfl
  | var n => rfl
  | unary op e =>
    simp only [t2VisitE]
    exact t2VisitE_empty table e
      (fun c hc => h c (by simpa [calleeNamesE] using hc))
  | binary op l r =>
    have hl := t2VisitE_empty table l (fun c hc => h c (by
      simp only [calleeNamesE, List.mem_append]; exact Or.inl hc))
    have hr := t2VisitE_empty table r (fun c hc => h c (by
      simp only [calleeNamesE, List.mem_append]; exact Or.inr hc))
    simp [t2VisitE, hl, hr]
  | call f args =>
    have hf := h f (by simp [calleeNamesE])
    simp only [t2VisitE]
    cases hl : lookupArity table f with
    | none => rw [hl] at hf; simp at hf
    | some a =>
      simp only [hl]
      by_cases hlen : (args.length != a) = true
      · rw [if_pos hlen]
      · rw [if_neg hlen]
        exact t2VisitEList_empty table args (fun c hc => h c (by
          simp only [calleeNamesE, List.mem_cons]
          exact Or.inr hc))

theorem t2VisitEList_empty (table : List (String × Nat)) (es : List Expr)
    (h : ∀ c ∈ calleeNamesEList es, (lookupArity table c).isSome = true) :
    t2VisitEList table es = [] := by
  cases es with
  | nil => rfl
  | cons e rest =>
    have he := t2VisitE_empty table e (fun c hc => h c (by
      simp only [calleeNamesEList, List.mem_append]; exact Or.inl hc))
    have hr := t2VisitEList_empty table rest (fun c hc => h c (by
      simp only [calleeNamesEList, List.mem_append]; exact Or.inr hc))
    simp [t2VisitEList, he, hr]
end

mutual
theorem t2VisitS_empty (table : List (String × Nat)) (retTy : Ty)
    (s : Stmt) (scopes : List (List (String × SymKind)))
    (h : ∀ c ∈ calleeNamesS s, (lookupArity table c).isSome = true) :
    (t2VisitS table retTy scopes s).1 = [] := by
  cases s with
  | empty => rfl
  | exprStmt e =>
    exact t2VisitE_empty table e
      (fun c hc => h c (by simpa [calleeNamesS] using hc))
  | block ss =>
    simp only [t2VisitS]
    exact t2VisitSList_empty table retTy ss ([] :: scopes)
      (fun c hc => h c (by simpa [calleeNamesS] using hc))
  | varDecl n i =>
    simp only [t2VisitS]
    by_cases hd : t2DefinedLocal scopes n = true
    · rw [if_pos hd]
    · rw [if_neg hd]
      exact t2VisitE_empty table i
        (fun c hc => h c (by simpa [calleeNamesS] using hc))
  | assign n v =>
    simp only [t2VisitS]
    cases hl : t2Lookup scopes n with
    | none => simp only [hl]
    | some k =>
      cases k with
      | var =>
        simp only [hl]
        exact t2VisitE_empty table v
          (fun c hc => h c (by simpa [calleeNamesS] using hc))
      | param =>
        simp only [hl]
        exact t2VisitE_empty table v
          (fun c hc => h c (by simpa [calleeNamesS] using hc))
      | func => simp only [hl]
  | ifS cnd t els =>
    cases els with
    | none =>
      have h1 := t2VisitE_empty table cnd (fun c hc => h c (by
        simp only [calleeNamesS, List.mem_append]; exact Or.inl hc))
      have h2 := t2VisitS_empty table retTy t scopes (fun c hc => h c (by
        simp only [calleeNamesS, List.mem_append]; exact Or.inr hc))
      simp [t2VisitS, h1, h2]
    | some e =>
      have h1 := t2VisitE_empty table cnd (fun c hc => h c (by
        simp only [calleeNamesS, List.mem_append]
        exact Or.inl (Or.inl hc)))
      have h2 := t2VisitS_empty table retTy t scopes (fun c hc => h c (by
        simp only [calleeNamesS, List.mem_append]
        exact Or.inl (Or.inr hc)))
      have h3 := t2VisitS_empty table retTy e
        (t2VisitS table retTy scopes t).2 (fun c hc => h c (by
          simp only [calleeNamesS, List.mem_append]; exact Or.inr hc))
      simp [t2VisitS, h1, h2, h3]
  | whileS cnd b =>
    have h1 := t2VisitE_empty table cnd (fun c hc => h c (by
      simp only [calleeNamesS, List.mem_append]; exact Or.inl hc))
    have h2 := t2VisitS_empty table retTy b scopes (fun c hc => h c (by
      simp only [calleeNamesS, List.mem_append]; exact Or.inr hc))
    simp [t2VisitS, h1, h2]
  | breakS => rfl
  | continueS => rfl
  | ret v =>
    cases v with
    | none => rfl
    | some v =>
      simp only [t2VisitS]
      by_cases hv : (retTy == Ty.void) = true
      · rw [if_pos hv]
      · rw [if_neg hv]
        exact t2VisitE_empty table v
          (fun c hc => h c (by simpa [calleeNamesS] using hc))

theorem t2VisitSList_empty (table : List (String × Nat)) (retTy : Ty)
    (ss : List Stmt) (scopes : List (List (String × SymKind)))
    (h : ∀ c ∈ calleeNamesSList ss, (lookupArity table c).isSome = true) :
    (t2VisitSList table retTy scopes ss).1 = [] := by
  cases ss with
  | nil => rfl
  | cons s rest =>
    have h1 := t2VisitS_empty table retTy s scopes (fun c hc => h c (by
      simp only [calleeNamesSList, List.mem_append]; exact Or.inl hc))
    have h2 := t2VisitSList_empty table retTy rest
      (t2VisitS table retTy scopes s).2 (fun c hc => h c (by
        simp only [calleeNamesSList, List.mem_append]; exact Or.inr hc))
    simp [t2VisitSList, h1, h2]
end

/-- The pre-pass table resolves every name that is defined somewhere in
the unit. -/
theorem lookupArity_t2Table (fs : List FuncDef) (c : String)
    (h : c ∈ fs.map FuncDef.name) :
    (lookupArity (fs.map (fun f => (f.name, f.params.length))) c).isSome
      = true := by
  induction fs with
  | nil => simp at h
  | cons f rest ih =>
    simp only [List.map_cons, List.mem_cons] at h
    simp only [List.map_cons, lookupArity]
    by_cases he : (c == f.name) = true
    · rw [if_pos he]; rfl
    · rw [if_neg he]
      rcases h with h1 | h1
      · exact absurd (beq_iff_eq.mpr h1) he
      · exact ih h1

/-- C3 amended: the pre-pass claim holds for the TOYC2 analyzer — when
every called name occurring in the unit is defined somewhere in it, no
UNDEFINED_FUNCTION error is reported at all, so calls to later-defined
functions resolve.  The part_001 analyzer has no pre-pass: every report
it emits names a callee that is defined neither earlier in the unit nor
by the calling function itself.  The converse direction fails, because
`visit(CallExpr)` returns from an unresolved callee WITHOUT visiting
the arguments: on `c3NestedUnit` (`a` returns `y(x())` with `x` defined
later and `y` nowhere) both analyzers report only `y` — the nested call
to the later-defined `x` is never visited, so part_001 does not report
it. -/
theorem c3_amended :
    (∀ cu : CompUnit,
        (∀ c ∈ calleeNamesUnit cu, c ∈ cu.functions.map FuncDef.name) →
        undefCallsT2 cu = []) ∧
    (∀ (cu : CompUnit) (caller callee : String),
        (caller, callee) ∈ undefCallsP1 cu →
        ∃ pre f post, cu.functions = pre ++ f :: post ∧ caller = f.name ∧
          callee ∉ pre.map FuncDef.name ∧ callee ≠ f.name) ∧
    undefCallsP1 c3NestedUnit = [("a", "y")] ∧
    undefCallsT2 c3NestedUnit = [("a", "y")] := by
  refine ⟨?_, ?_, rfl, rfl⟩
  · intro cu hdef
    apply List.eq_nil_iff_forall_not_mem.mpr
    rintro ⟨x, y⟩ hmem
    simp only [undefCallsT2, List.mem_flatMap, List.mem_map] at hmem
    obtain ⟨f, hf, c, hc, _⟩ := hmem
    have hemp := t2VisitS_empty (t2Table cu) f.returnType f.body
      [f.params.map (fun p => (p, SymKind.param)), t2GlobalScope cu]
      (by
        intro c2 hc2
        have hu : c2 ∈ calleeNamesUnit cu := by
          simp only [calleeNamesUnit]
          exact List.mem_flatMap.mpr ⟨f, hf, hc2⟩
        simpa [t2Table] using lookupArity_t2Table cu.functions c2 (hdef c2 hu))
    rw [hemp] at hc
    exact List.not_mem_nil c hc
  · intro cu caller callee h
    obtain ⟨pre, f, post, h1, h2, _, h4, h5⟩ :=
      undefCallsP1Go_sound cu.functions [] caller callee h
    exact ⟨pre, f, post, h1, h2, h4, h5⟩

/-- Witness for `c3_amended` at the concrete unit `c3Unit`: every
called name there (`g` and `f`) is defined in the unit, so TOYC2
reports nothing; and part_001's report ("f", "g") names a callee
defined neither earlier than `f` nor by `f` itself. -/
theorem c3_amended_witness :
    undefCallsT2 c3Unit = [] ∧
    (∃ pre f post, c3Unit.functions = pre ++ f :: post ∧ "f" = f.name ∧
      "g" ∉ pre.map FuncDef.name ∧ "g" ≠ f.name) :=
  ⟨c3_amended.1 c3Unit (by decide),
   c3_amended.2.1 c3Unit "f" "g" (by decide)⟩

/-- C6 counterexample: for `x / (2-2)` the constant evaluation of the
right operand yields 0, yet the TOYC2 analyzer reports no
DivisionByZero — it only recognizes the literal `0` — refuting the
claim that a compound constant right operand triggers the error in the
semantic analyzer.  (part_001 does report it.) -/
theorem c6_counterexample :
    evaluateConstant c6Rhs = some 0 ∧
    divByZeroReportedT2 BOp.div c6Rhs = false ∧
    divByZeroReportedP1 BOp.div c6Rhs = true := by
  refine ⟨?_, rfl, ?_⟩ <;> decide

/-- C6 amended: the claim as stated holds for the part_001 analyzer —
DivisionByZero is reported exactly when the operator is `/` or `%` and
the constant fold of the right operand yields 0 (so compound constants
trigger it and non-constant operands never do).  The TOYC2 analyzer
instead reports it exactly when the right operand is the literal `0`. -/
theorem c6_amended (op : BOp) (r : Expr) :
    (divByZeroReportedP1 op r = true ↔
      ((op = BOp.div ∨ op = BOp.mod) ∧ evaluateConstant r = some 0)) ∧
    (divByZeroReportedT2 op r = true ↔
      ((op = BOp.div ∨ op = BOp.mod) ∧ r = Expr.number 0)) := by
  constructor
  · simp [divByZeroReportedP1]
  · cases r with
    | number v =>
      simp only [divByZeroReportedT2, Bool.and_eq_true, Bool.or_eq_true,
        beq_iff_eq, Expr.number.injEq]
    | var n => simp [divByZeroReportedT2]
    | call f args => simp [divByZeroReportedT2]
    | unary uop e => simp [divByZeroReportedT2]
    | binary bop l rr => simp [divByZeroReportedT2]

/-- Witness for `c6_amended` at `op = /`, `r = 2 - 2`. -/
theorem c6_amended_witness :
    divByZeroReportedP1 BOp.div c6Rhs = true ∧
    divByZeroReportedT2 BOp.div c6Rhs = false := by
  constructor
  · exact (c6_amended BOp.div c6Rhs).1.2 ⟨Or.inl rfl, by decide⟩
  · have h := (c6_amended BOp.div c6Rhs).2
    cases hb : divByZeroReportedT2 BOp.div c6Rhs with
    | false => rfl
    | true =>
      rcases h.1 hb with ⟨_, heq⟩
      simp [c6Rhs] at heq

/-- C4 (code bug): evaluating the optimizer visitor at the decisive
inputs.

1. `if (1) return 2;` — the visitor records the rewrite but then
   dereferences the moved-out then branch: a null dereference, and in
   particular the computed replacement is never installed.
2. `if (0) return 2; else return 3;` — the live else branch is moved
   out, discarded and destroyed; the `If` node itself — then branch
   included — stays installed, with only the rewrite counter bumped.
3. `while (0) return 2;` — `optimize_while_statement` computes the
   `Empty` replacement, but the `While` node is left in the tree
   unchanged; the rewrite is merely counted. -/
theorem c4_code_bug :
    optVisitStmt (Stmt.ifS (Expr.number 1) (Stmt.ret (some (Expr.number 2))) none)
      = Except.error () ∧
    optVisitStmt (Stmt.ifS (Expr.number 0) (Stmt.ret (some (Expr.number 2)))
        (some (Stmt.ret (some (Expr.number 3)))))
      = Except.ok (Stmt.ifS (Expr.number 0) (Stmt.ret (some (Expr.number 2))) none, 1) ∧
    optVisitStmt (Stmt.whileS (Expr.number 0) (Stmt.ret (some (Expr.number 2))))
      = Except.ok (Stmt.whileS (Expr.number 0) (Stmt.ret (some (Expr.number 2))), 1) ∧
    optimize_while_statement (Expr.number 0) = some Stmt.empty ∧
    optimize_if_statement (Expr.number 1) (Stmt.ret (some (Expr.number 2))) none
      = (some (Stmt.ret (some (Expr.number 2))), none, none) := by
  refine ⟨rfl, rfl, rfl, rfl, rfl⟩

/-- A constant expression (in the `is_constant_expr` sense) contains no
calls: the recognizer rejects `Call` and `Var` nodes outright. -/
theorem const_no_calls : ∀ e, is_constant_expr e = true → callCount e = 0
  | .number _, _ => rfl
  | .binary _ l r, h => by
    simp only [is_constant_expr, Bool.and_eq_true] at h
    simp only [callCount, const_no_calls l h.1, const_no_calls r h.2]
  | .unary _ e, h => by
    simp only [is_constant_expr] at h
    simp only [callCount, const_no_calls e h]
  | .var _, h => by simp [is_constant_expr] at h
  | .call _ _, h => by simp [is_constant_expr] at h

/-- A successful binary constant fold requires both sides constant and
produces the literal that `evaluate_constant_expr` computes for the
whole node. -/
theorem constant_foldingB_shape (op : BOp) (l r : Expr) (f : Expr)
    (h : constant_foldingB op l r = some f) :
    is_constant_expr l = true ∧ is_constant_expr r = true ∧
    f = Expr.number (evaluate_constant_expr (Expr.binary op l r)) := by
  unfold constant_foldingB at h
  by_cases hl : is_constant_expr l = true
  · by_cases hr : is_constant_expr r = true
    · refine ⟨hl, hr, ?_⟩
      simp only [hl, hr, Bool.not_true, Bool.or_self, Bool.false_eq_true,
        if_false] at h
      cases op <;>
        simp only [evaluate_constant_expr] <;>
        first
          | (exact (Option.some.injEq _ _ ▸ h).symm ▸ rfl)
          | (simp only at h; split at h <;> simp_all [evaluate_constant_expr])
    · simp [hr] at h
  · simp [hl] at h

/-- C5 counterexample: the `x*0 = 0` rule fires even when the other side
contains a call — `f() * 0` IS rewritten to `0`, deleting the call —
refuting the claim that every algebraic simplification skips rewrites
whose affected operand side contains a `Call` (`has_side_effects` is
never consulted by `simplify_expression`). -/
theorem c5_counterexample :
    simplify_expression c5Expr = Expr.number 0 ∧
    callCount c5Expr = 1 ∧
    callCount (simplify_expression c5Expr) = 0 :=
  ⟨rfl, rfl, rfl⟩

/-- C5 amended: every rewrite of `simplify_expression` preserves the
number of calls in the expression — so no call is ever deleted — EXCEPT
the `x*0`/`0*x` rule, which replaces the whole node (call-containing
side included) by the literal 0. -/
theorem c5_amended (e : Expr) :
    callCount (simplify_expression e) = callCount e ∨
    (mulZeroFires e = true ∧ simplify_expression e = Expr.number 0) := by
  cases e with
  | number v => exact Or.inl rfl
  | var n => exact Or.inl rfl
  | call f args => exact Or.inl rfl
  | unary op operand =>
    left
    show callCount (simplify_expression (.unary op operand)) = _
    unfold simplify_expression
    cases hf : constant_foldingU op operand with
    | some f =>
      have hc : is_constant_expr operand = true := by
        unfold constant_foldingU at hf
        by_cases h : is_constant_expr operand = true
        · exact h
        · simp [h] at hf
      have hn : ∃ n, f = Expr.number n := by
        unfold constant_foldingU at hf
        simp only [hc, Bool.not_true, Bool.false_eq_true, if_false] at hf
        cases op <;> simp only at hf <;> exact ⟨_, (Option.some_inj.mp hf).symm⟩
      obtain ⟨n, rfl⟩ := hn
      simp only [hf, callCount, const_no_calls operand hc]
    | none =>
      simp only [hf]
      cases op with
      | plus => simp [callCount]
      | minus =>
        cases operand with
        | unary iop inner =>
          cases iop <;> simp [callCount]
        | number v => simp [callCount]
        | var n => simp [callCount]
        | call f args => simp [callCount]
        | binary bop l r => simp [callCount]
      | lognot =>
        cases operand with
        | unary iop inner =>
          cases iop <;> simp [callCount, callCountList]
        | number v => simp [callCount]
        | var n => simp [callCount]
        | call f args => simp [callCount]
        | binary bop l r => simp [callCount]
  | binary op l r =>
    show _ ∨ (mulZeroFires (.binary op l r) = true ∧ _)
    unfold simplify_expression
    cases hf : constant_foldingB op l r with
    | some f =>
      left
      obtain ⟨hl, hr, rfl⟩ := constant_foldingB_shape op l r f hf
      simp only [hf, callCount, const_no_calls l hl, const_no_calls r hr]
    | none =>
      simp only [hf]
      split_ifs with h1 h2 h3 h4 h5 h6
      · left
        simp only [Bool.and_eq_true, beq_iff_eq] at h1
        simp only [callCount, const_no_calls r h1.1.2]
        omega
      · left
        simp only [Bool.and_eq_true, beq_iff_eq] at h2
        simp only [callCount, const_no_calls l h2.1.2]
        omega
      · left
        simp only [Bool.and_eq_true, beq_iff_eq] at h3
        simp only [callCount, const_no_calls r h3.1.2]
        omega
      · left
        simp only [Bool.and_eq_true, beq_iff_eq] at h4
        simp only [callCount, const_no_calls l h4.1.2]
        omega
      · right
        simp only [Bool.and_eq_true, beq_iff_eq] at h5
        obtain ⟨hop, hz⟩ := h5
        subst hop
        refine ⟨?_, rfl⟩
        simp only [mulZeroFires]
        exact hz
      · left
        simp only [Bool.and_eq_true, beq_iff_eq] at h6
        simp only [callCount, const_no_calls r h6.1.2]
        omega
      · left; rfl

/-- Every defined value of `strictBinSem` is a 32-bit value. -/
theorem strictBinSem_range (op : BOp) (lv rv v : Int)
    (h : strictBinSem op lv rv = some v) : -2 ^ 31 ≤ v ∧ v < 2 ^ 31 := by
  cases op <;> simp only [strictBinSem] at h <;> try split at h
  all_goals try exact Option.noConfusion h
  all_goals rw [Option.some_inj] at h
  all_goals subst h
  all_goals
    first
      | exact ⟨wrap_lb _, wrap_ub _⟩
      | (constructor <;> norm_num)

/-- Unfolding of `evalE` on a non-short-circuit binary operator. -/
theorem evalE_binary_strict (env : String → Int) (op : BOp) (l r : Expr)
    (h1 : op ≠ BOp.land) (h2 : op ≠ BOp.lor) :
    evalE env (.binary op l r) =
      match evalE env l, evalE env r with
      | some lv, some rv => strictBinSem op lv rv
      | _, _ => none := by
  cases op <;> first | rfl | exact absurd rfl h1 | exact absurd rfl h2

theorem evalE_land (env : String → Int) (l r : Expr) :
    evalE env (.binary BOp.land l r) =
      match evalE env l with
      | none => none
      | some lv =>
        if lv = 0 then some 0
        else
          match evalE env r with
          | none => none
          | some rv => some (if rv = 0 then 0 else 1) := rfl

theorem evalE_lor (env : String → Int) (l r : Expr) :
    evalE env (.binary BOp.lor l r) =
      match evalE env l with
      | none => none
      | some lv =>
        if lv ≠ 0 then some 1
        else
          match evalE env r with
          | none => none
          | some rv => some (if rv = 0 then 0 else 1) := rfl

/-- A defined `&&` evaluation yields 0 or 1. -/
theorem evalE_land_val (env : String → Int) (l r : Expr) (v : Int)
    (he : evalE env (.binary BOp.land l r) = some v) : v = 0 ∨ v = 1 := by
  rw [evalE_land] at he
  rcases hle : evalE env l with _ | lv <;> simp only [hle] at he
  · exact Option.noConfusion he
  · split at he
    · rw [Option.some_inj] at he; omega
    · rcases hre : evalE env r with _ | rv <;> simp only [hre] at he
      · exact Option.noConfusion he
      · rw [Option.some_inj] at he
        split at he <;> omega

/-- A defined `||` evaluation yields 0 or 1. -/
theorem evalE_lor_val (env : String → Int) (l r : Expr) (v : Int)
    (he : evalE env (.binary BOp.lor l r) = some v) : v = 0 ∨ v = 1 := by
  rw [evalE_lor] at he
  rcases hle : evalE env l with _ | lv <;> simp only [hle] at he
  · exact Option.noConfusion he
  · split at he
    · rw [Option.some_inj] at he; omega
    · rcases hre : evalE env r with _ | rv <;> simp only [hre] at he
      · exact Option.noConfusion he
      · rw [Option.some_inj] at he
        split at he <;> omega

/-- A defined evaluation of an expression with in-range literals is a
32-bit value. -/
theorem evalE_range (env : String → Int) :
    ∀ e v, litsInRange e = true → evalE env e = some v →
      -2 ^ 31 ≤ v ∧ v < 2 ^ 31
  | .number n, v, hl, he => by
    simp only [evalE, Option.some_inj] at he
    subst he
    simp only [litsInRange, Bool.and_eq_true, decide_eq_true_eq] at hl
    exact hl
  | .var x, v, _, he => by
    simp only [evalE, Option.some_inj] at he
    subst he
    exact ⟨wrap_lb _, wrap_ub _⟩
  | .call f args, v, _, he => by simp [evalE] at he
  | .unary op e, v, hl, he => by
    simp only [evalE] at he
    rcases hee : evalE env e with _ | v0 <;> simp only [hee] at he
    · exact Option.noConfusion he
    · cases op with
      | plus =>
        rw [Option.some_inj] at he
        subst he
        exact evalE_range env e v0 (by simpa [litsInRange] using hl) hee
      | minus =>
        rw [Option.some_inj] at he; subst he
        exact ⟨wrap_lb _, wrap_ub _⟩
      | lognot =>
        rw [Option.some_inj] at he; subst he
        constructor <;> split <;> norm_num
  | .binary op l r, v, hl, he => by
    by_cases hand : op = BOp.land
    · subst hand
      rcases evalE_land_val env l r v he with rfl | rfl <;> norm_num
    by_cases hor : op = BOp.lor
    · subst hor
      rcases evalE_lor_val env l r v he with rfl | rfl <;> norm_num
    rw [evalE_binary_strict env op l r hand hor] at he
    rcases hle : evalE env l with _ | lv <;> simp only [hle] at he
    · exact Option.noConfusion he
    · rcases hre : evalE env r with _ | rv <;> simp only [hre] at he
      · exact Option.noConfusion he
      · exact strictBinSem_range op lv rv v he

/-- Agreement of the optimizer's strict total evaluator with the
reference semantics: on a constant expression (in the
`is_constant_expr` sense, hence Var- and Call-free) with in-range
literals whose reference evaluation is defined,
`evaluate_constant_expr` computes exactly that value — even though it
itself treats division by zero as 0 and `&&`/`||` strictly. -/
theorem ece_agrees (env : String → Int) :
    ∀ e, litsInRange e = true → is_constant_expr e = true →
      ∀ v, evalE env e = some v → evaluate_constant_expr e = v
  | .number n, _, _, v, he => by
    simp only [evalE, Option.some_inj] at he
    simpa [evaluate_constant_expr] using he
  | .var x, _, hc, v, _ => by simp [is_constant_expr] at hc
  | .call f args, _, hc, v, _ => by simp [is_constant_expr] at hc
  | .unary op e, hl, hc, v, he => by
    have hl2 : litsInRange e = true := by simpa [litsInRange] using hl
    have hc2 : is_constant_expr e = true := by simpa [is_constant_expr] using hc
    simp only [evalE] at he
    rcases hee : evalE env e with _ | v0 <;> simp only [hee] at he
    · exact Option.noConfusion he
    · have ih : evaluate_constant_expr e = v0 := ece_agrees env e hl2 hc2 v0 hee
      cases op with
      | plus =>
        rw [Option.some_inj] at he
        simpa [evaluate_constant_expr, ih] using he
      | minus =>
        rw [Option.some_inj] at he
        simpa [evaluate_constant_expr, ih] using he
      | lognot =>
        rw [Option.some_inj] at he
        simpa [evaluate_constant_expr, ih] using he
  | .binary op l r, hl, hc, v, he => by
    have hll : litsInRange l = true := by
      simp only [litsInRange, Bool.and_eq_true] at hl; exact hl.1
    have hlr : litsInRange r = true := by
      simp only [litsInRange, Bool.and_eq_true] at hl; exact hl.2
    have hcl : is_constant_expr l = true := by
      simp only [is_constant_expr, Bool.and_eq_true] at hc; exact hc.1
    have hcr : is_constant_expr r = true := by
      simp only [is_constant_expr, Bool.and_eq_true] at hc; exact hc.2
    by_cases hand : op = BOp.land
    · subst hand
      rw [evalE_land] at he
      rcases hle : evalE env l with _ | lv <;> simp only [hle] at he
      · exact Option.noConfusion he
      · have ihl : evaluate_constant_expr l = lv := ece_agrees env l hll hcl lv hle
        split at he
        · rw [Option.some_inj] at he
          rename_i hz
          simp only [evaluate_constant_expr, ihl, hz]
          exact he
        · rcases hre : evalE env r with _ | rv <;> simp only [hre] at he
          · exact Option.noConfusion he
          · have ihr : evaluate_constant_expr r = rv := ece_agrees env r hlr hcr rv hre
            rw [Option.some_inj] at he
            rename_i hz
            simp only [evaluate_constant_expr, ihl, ihr]
            rw [← he]
            by_cases hrz : rv = 0
            · simp [hrz]
            · simp [hrz, hz]
    by_cases hor : op = BOp.lor
    · subst hor
      rw [evalE_lor] at he
      rcases hle : evalE env l with _ | lv <;> simp only [hle] at he
      · exact Option.noConfusion he
      · have ihl : evaluate_constant_expr l = lv := ece_agrees env l hll hcl lv hle
        split at he
        · rw [Option.some_inj] at he
          rename_i hz
          simp only [evaluate_constant_expr, ihl]
          rw [← he]
          simp [hz]
        · rcases hre : evalE env r with _ | rv <;> simp only [hre] at he
          · exact Option.noConfusion he
          · have ihr : evaluate_constant_expr r = rv := ece_agrees env r hlr hcr rv hre
            rw [Option.some_inj] at he
            rename_i hz
            simp only [ne_eq, Decidable.not_not] at hz
            simp only [evaluate_constant_expr, ihl, ihr, hz]
            rw [← he]
            by_cases hrz : rv = 0
            · simp [hrz]
            · simp [hrz]
    rw [evalE_binary_strict env op l r hand hor] at he
    rcases hle : evalE env l with _ | lv <;> simp only [hle] at he
    · exact Option.noConfusion he
    rcases hre : evalE env r with _ | rv <;> simp only [hre] at he
    · exact Option.noConfusion he
    have ihl : evaluate_constant_expr l = lv := ece_agrees env l hll hcl lv hle
    have ihr : evaluate_constant_expr r = rv := ece_agrees env r hlr hcr rv hre
    cases op with
    | land => exact absurd rfl hand
    | lor => exact absurd rfl hor
    | add =>
      simp only [evaluate_constant_expr, ihl, ihr]
      simpa [strictBinSem] using he
    | sub =>
      simp only [evaluate_constant_expr, ihl, ihr]
      simpa [strictBinSem] using he
    | mul =>
      simp only [evaluate_constant_expr, ihl, ihr]
      simpa [strictBinSem] using he
    | div =>
      simp only [evaluate_constant_expr, ihl, ihr]
      simp only [strictBinSem] at he
      split at he
      · exact Option.noConfusion he
      · rename_i hrz
        rw [Option.some_inj] at he
        simpa [hrz] using he
    | mod =>
      simp only [evaluate_constant_expr, ihl, ihr]
      simp only [strictBinSem] at he
      split at he
      · exact Option.noConfusion he
      · rename_i hrz
        rw [Option.some_inj] at he
        simpa [hrz] using he
    | lt =>
      simp only [evaluate_constant_expr, ihl, ihr]
      simpa [strictBinSem] using he
    | gt =>
      simp only [evaluate_constant_expr, ihl, ihr]
      simpa [strictBinSem] using he
    | le =>
      simp only [evaluate_constant_expr, ihl, ihr]
      simpa [strictBinSem] using he
    | ge =>
      simp only [evaluate_constant_expr, ihl, ihr]
      simpa [strictBinSem] using he
    | eq =>
      simp only [evaluate_constant_expr, ihl, ihr]
      simpa [strictBinSem] using he
    | ne =>
      simp only [evaluate_constant_expr, ihl, ihr]
      simpa [strictBinSem] using he

/-- Model of `wrap 0 = 0`. -/
theorem wrap_zero : wrap 0 = 0 := wrap_of_range 0 (by norm_num) (by norm_num)

/-- A successful unary constant fold requires a constant operand and
produces the literal that `evaluate_constant_expr` computes for the
whole node. -/
theorem constant_foldingU_shape (op : UOp) (operand : Expr) (f : Expr)
    (h : constant_foldingU op operand = some f) :
    is_constant_expr operand = true ∧
    f = Expr.number (evaluate_constant_expr (Expr.unary op operand)) := by
  unfold constant_foldingU at h
  by_cases hc : is_constant_expr operand = true
  · refine ⟨hc, ?_⟩
    simp only [hc, Bool.not_true, Bool.false_eq_true, if_false] at h
    cases op <;> simp only [evaluate_constant_expr] <;>
      exact (Option.some_inj.mp h).symm
  · simp [hc] at h

theorem c2_counterexample :
    simplify_expression c2Expr = Expr.var "x" ∧
    callCount c2Expr = 0 ∧
    evalE (fun _ => 5) c2Expr = none ∧
    evalE (fun _ => 5) (simplify_expression c2Expr) = some 5 := by
  refine ⟨rfl, rfl, rfl, ?_⟩
  show some (wrap 5) = some 5
  rw [wrap_of_range 5 (by norm_num) (by norm_num)]

/-- C2 amended: value preservation holds whenever the original
evaluation is defined — for every Call-free expression with in-range
literals, if the reference evaluation of `E` yields a value, then the
rewritten expression evaluates to the same value; but (by
`c2_counterexample`) a subexpression whose evaluation divides by zero
may be folded away, so an erroring `E` may be rewritten into a defined
`E'`. -/
theorem c2_amended (env : String → Int) (E : Expr) (v : Int)
    (hl : litsInRange E = true) (hnc : callCount E = 0)
    (hev : evalE env E = some v) :
    evalE env (simplify_expression E) = some v := by
  cases E with
  | number n => exact hev
  | var x => exact hev
  | call f args => exact hev
  | unary op operand =>
    unfold simplify_expression
    cases hf : constant_foldingU op operand with
    | some f =>
      obtain ⟨hc, rfl⟩ := constant_foldingU_shape op operand f hf
      simp only [hf]
      have hagree := ece_agrees env (.unary op operand) hl
        (by simpa [is_constant_expr] using hc) v hev
      simp only [evalE, hagree]
    | none =>
      simp only [hf]
      cases op with
      | plus =>
        cases operand with
        | number n => exact hev
        | var x => exact hev
        | call f args => exact hev
        | unary iop inner => exact hev
        | binary bop l r => exact hev
      | minus =>
        cases operand with
        | number n => exact hev
        | var x => exact hev
        | call f args => exact hev
        | binary bop l r => exact hev
        | unary iop inner =>
          cases iop with
          | plus => exact hev
          | lognot => exact hev
          | minus =>
            simp only [evalE] at hev
            rcases hi : evalE env inner with _ | iv <;> simp only [hi] at hev
            · exact Option.noConfusion hev
            · rw [Option.some_inj] at hev
              have hrange := evalE_range env inner iv
                (by simpa [litsInRange] using hl) hi
              rw [Option.some_inj, ← hev]
              exact (wrap_neg_neg iv hrange.1 hrange.2).symm
      | lognot =>
        cases operand with
        | number n => exact hev
        | var x => exact hev
        | call f args => exact hev
        | binary bop l r => exact hev
        | unary iop inner =>
          cases iop with
          | plus => exact hev
          | minus => exact hev
          | lognot =>
            simp only [evalE] at hev
            rcases hi : evalE env inner with _ | iv <;> simp only [hi] at hev
            · exact Option.noConfusion hev
            · rw [Option.some_inj] at hev
              rw [evalE_binary_strict env BOp.ne inner (.number 0)
                (by decide) (by decide)]
              simp only [hi, evalE, strictBinSem, Option.some_inj]
              rw [← hev]
              by_cases hz : iv = 0 <;> simp [hz]
  | binary op l r =>
    have hll : litsInRange l = true := by
      simp only [litsInRange, Bool.and_eq_true] at hl; exact hl.1
    have hlr : litsInRange r = true := by
      simp only [litsInRange, Bool.and_eq_true] at hl; exact hl.2
    unfold simplify_expression
    cases hf : constant_foldingB op l r with
    | some f =>
      obtain ⟨hcl, hcr, rfl⟩ := constant_foldingB_shape op l r f hf
      simp only [hf]
      have hc : is_constant_expr (Expr.binary op l r) = true := by
        simp [is_constant_expr, hcl, hcr]
      have hagree := ece_agrees env (.binary op l r) hl hc v hev
      simp only [evalE, hagree]
    | none =>
      simp only [hf]
      split_ifs with h1 h2 h3 h4 h5 h6
      · -- x + 0 = x
        simp only [Bool.and_eq_true, beq_iff_eq] at h1
        obtain ⟨⟨hop, hcr⟩, hzr⟩ := h1
        subst hop
        rw [evalE_binary_strict env BOp.add l r (by decide) (by decide)] at hev
        rcases hle : evalE env l with _ | lv <;> simp only [hle] at hev
        · exact Option.noConfusion hev
        rcases hre : evalE env r with _ | rv <;> simp only [hre] at hev
        · exact Option.noConfusion hev
        simp only [strictBinSem, Option.some_inj] at hev
        have hrv : rv = 0 := by
          have := ece_agrees env r hlr hcr rv hre
          omega
        have hrange := evalE_range env l lv hll hle
        rw [Option.some_inj, ← hev, hrv, add_zero]
        exact (wrap_of_range lv hrange.1 hrange.2).symm
      · -- 0 + x = x
        simp only [Bool.and_eq_true, beq_iff_eq] at h2
        obtain ⟨⟨hop, hcl⟩, hzl⟩ := h2
        subst hop
        rw [evalE_binary_strict env BOp.add l r (by decide) (by decide)] at hev
        rcases hle : evalE env l with _ | lv <;> simp only [hle] at hev
        · exact Option.noConfusion hev
        rcases hre : evalE env r with _ | rv <;> simp only [hre] at hev
        · exact Option.noConfusion hev
        simp only [strictBinSem, Option.some_inj] at hev
        have hlv : lv = 0 := by
          have := ece_agrees env l hll hcl lv hle
          omega
        have hrange2 := evalE_range env r rv hlr hre
        rw [Option.some_inj, ← hev, hlv, zero_add]
        exact (wrap_of_range rv hrange2.1 hrange2.2).symm
      · -- x * 1 = x
        simp only [Bool.and_eq_true, beq_iff_eq] at h3
        obtain ⟨⟨hop, hcr⟩, hzr⟩ := h3
        subst hop
        rw [evalE_binary_strict env BOp.mul l r (by decide) (by decide)] at hev
        rcases hle : evalE env l with _ | lv <;> simp only [hle] at hev
        · exact Option.noConfusion hev
        rcases hre : evalE env r with _ | rv <;> simp only [hre] at hev
        · exact Option.noConfusion hev
        simp only [strictBinSem, Option.some_inj] at hev
        have hrv : rv = 1 := by
          have := ece_agrees env r hlr hcr rv hre
          omega
        have hrange := evalE_range env l lv hll hle
        rw [Option.some_inj, ← hev, hrv, mul_one]
        exact (wrap_of_range lv hrange.1 hrange.2).symm
      · -- 1 * x = x
        simp only [Bool.and_eq_true, beq_iff_eq] at h4
        obtain ⟨⟨hop, hcl⟩, hzl⟩ := h4
        subst hop
        rw [evalE_binary_strict env BOp.mul l r (by decide) (by decide)] at hev
        rcases hle : evalE env l with _ | lv <;> simp only [hle] at hev
        · exact Option.noConfusion hev
        rcases hre : evalE env r with _ | rv <;> simp only [hre] at hev
        · exact Option.noConfusion hev
        simp only [strictBinSem, Option.some_inj] at hev
        have hlv : lv = 1 := by
          have := ece_agrees env l hll hcl lv hle
          omega
        have hrange2 := evalE_range env r rv hlr hre
        rw [Option.some_inj, ← hev, hlv, one_mul]
        exact (wrap_of_range rv hrange2.1 hrange2.2).symm
      · -- x * 0 = 0 / 0 * x = 0
        simp only [Bool.and_eq_true, beq_iff_eq, Bool.or_eq_true] at h5
        obtain ⟨hop, hz⟩ := h5
        subst hop
        rw [evalE_binary_strict env BOp.mul l r (by decide) (by decide)] at hev
        rcases hle : evalE env l with _ | lv <;> simp only [hle] at hev
        · exact Option.noConfusion hev
        rcases hre : evalE env r with _ | rv <;> simp only [hre] at hev
        · exact Option.noConfusion hev
        simp only [strictBinSem, Option.some_inj] at hev
        simp only [evalE, Option.some_inj]
        rcases hz with ⟨hcl, hzl⟩ | ⟨hcr, hzr⟩
        · have hlv : lv = 0 := by
            have := ece_agrees env l hll hcl lv hle
            omega
          rw [← hev, hlv, zero_mul, wrap_zero]
        · have hrv : rv = 0 := by
            have := ece_agrees env r hlr hcr rv hre
            omega
          rw [← hev, hrv, mul_zero, wrap_zero]
      · -- x - 0 = x
        simp only [Bool.and_eq_true, beq_iff_eq] at h6
        obtain ⟨⟨hop, hcr⟩, hzr⟩ := h6
        subst hop
        rw [evalE_binary_strict env BOp.sub l r (by decide) (by decide)] at hev
        rcases hle : evalE env l with _ | lv <;> simp only [hle] at hev
        · exact Option.noConfusion hev
        rcases hre : evalE env r with _ | rv <;> simp only [hre] at hev
        · exact Option.noConfusion hev
        simp only [strictBinSem, Option.some_inj] at hev
        have hrv : rv = 0 := by
          have := ece_agrees env r hlr hcr rv hre
          omega
        have hrange := evalE_range env l lv hll hle
        rw [Option.some_inj, ← hev, hrv, sub_zero]
        exact (wrap_of_range lv hrange.1 hrange.2).symm
      · exact hev

/-- Witness for `c2_amended` at `E = y + 0`, `env = (fun _ => 7)`,
`v = 7`. -/
theorem c2_amended_witness :
    evalE (fun _ => 7) (simplify_expression
      (Expr.binary BOp.add (Expr.var "y") (Expr.number 0))) = some 7 :=
  c2_amended (fun _ => 7)
    (Expr.binary BOp.add (Expr.var "y") (Expr.number 0)) 7
    (by decide) rfl (by decide)

/-- C7 counterexample: for `A && B` with `A = 1`, `B = 5`, the
`code_generator.cpp` emitter stores 5 — the raw value of B — in the
result register, not the claimed {0,1} normalization (which would
be 1); dually its `||` block stores the raw B when A is zero.  (B is
still evaluated only when required.) -/
theorem c7_counterexample :
    (runSC emitAndCG 1 5).regs "t0" = 5 ∧
    (runSC emitOrCG 0 5).regs "t0" = 5 := by
  constructor <;> rfl

/-- C7 amended: in the `part_011` generator the claim holds in full —
for `A && B` the emitted block evaluates B iff A is non-zero and stores
the {0,1} normalization (`snez`), dually for `||`.  In the
`code_generator.cpp` generator the evaluation order part holds (B is
evaluated iff A non-zero for `&&`, iff A zero for `||`), but when B is
evaluated its RAW value is stored, not the {0,1} normalization. -/
theorem c7_amended (a b : Int) :
    ((runSC emitAnd011 a b).regs "t0" =
        (if a ≠ 0 then (if b ≠ 0 then 1 else 0) else 0) ∧
      ((1 : Nat) ∈ (runSC emitAnd011 a b).loads ↔ a ≠ 0)) ∧
    ((runSC emitOr011 a b).regs "t0" =
        (if a ≠ 0 then 1 else (if b ≠ 0 then 1 else 0)) ∧
      ((1 : Nat) ∈ (runSC emitOr011 a b).loads ↔ a = 0)) ∧
    ((runSC emitAndCG a b).regs "t0" = (if a ≠ 0 then b else 0) ∧
      ((1 : Nat) ∈ (runSC emitAndCG a b).loads ↔ a ≠ 0)) ∧
    ((runSC emitOrCG a b).regs "t0" = (if a ≠ 0 then 1 else b) ∧
      ((1 : Nat) ∈ (runSC emitOrCG a b).loads ↔ a = 0)) := by
  by_cases hz : a = 0 <;>
    simp [runSC, runA, emitAnd011, emitOr011, emitAndCG, emitOrCG,
      regSet, labelIdx, hz]

/-- Witness for `c7_amended` at `a = 1`, `b = 5`. -/
theorem c7_amended_witness :
    (runSC emitAnd011 1 5).regs "t0" = 1 ∧
    (runSC emitAndCG 1 5).regs "t0" = 5 := by
  have h := c7_amended 1 5
  constructor
  · rw [h.1.1]; norm_num
  · rw [h.2.2.1.1]; norm_num

/-- C8 counterexample: the adjacent pair `sw t0, 0(fp); lw t0, 0(fp)` —
the pair named by the claim — is left completely untouched by the
pass: no pattern matches a store followed by a load.  In particular the
result is not "the store alone". -/
theorem c8_counterexample :
    peepholeOptimize [AsmLine.sw "t0" "0(fp)", AsmLine.lw "t0" "0(fp)"]
        = [AsmLine.sw "t0" "0(fp)", AsmLine.lw "t0" "0(fp)"] ∧
    peepholeOptimize [AsmLine.sw "t0" "0(fp)", AsmLine.lw "t0" "0(fp)"]
        ≠ [AsmLine.sw "t0" "0(fp)"] := by
  constructor <;>
    simp [peepholeOptimize, peepLoop, peepScan, tryPatterns,
      pat_li_compare, pat_load_store_same, pat_redundant_move]

/-- C8 amended: the pass's "load_store_same" pattern matches the
REVERSE pair `lw rX, k(fp); sw rX, k(fp)` and deletes the whole matched
window — both instructions, and also an unrelated third line when the
window holds one; the `sw; lw` pair of the claim is never rewritten. -/
theorem c8_amended (r m : String) (x : String) :
    peepholeOptimize [AsmLine.sw r m, AsmLine.lw r m]
        = [AsmLine.sw r m, AsmLine.lw r m] ∧
    peepholeOptimize [AsmLine.lw r m, AsmLine.sw r m] = [] ∧
    peepholeOptimize [AsmLine.lw r m, AsmLine.sw r m, AsmLine.other x]
        = [] := by
  refine ⟨?_, ?_, ?_⟩ <;>
    simp [peepholeOptimize, peepLoop, peepScan, tryPatterns,
      pat_li_compare, pat_load_store_same, pat_redundant_move]

/-- C9 counterexample: with one free register, the linear-scan spill
path assigns the victim's register `s1` to `b` while `a` — whose
interval [0,3] overlaps `b`'s [1,2] — KEEPS its `allocation` entry
`s1`: the returned assignment maps two overlapping variables to the
same register, refuting the claimed validity for
`LinearScanRegisterAllocator::allocate`. -/
theorem c9_counterexample :
    lsAllocate c9Instrs c9OneReg "a" = some "s1" ∧
    lsAllocate c9Instrs c9OneReg "b" = some "s1" ∧
    amFind (computeLifetimes c9Instrs) "a" = some (0, 3) ∧
    amFind (computeLifetimes c9Instrs) "b" = some (1, 2) ∧
    overlaps (0, 3) (1, 2) = true := by
  refine ⟨?_, ?_, ?_, ?_, ?_⟩ <;> rfl

theorem amFind_mem {α : Type} (m : List (String × α)) (k : String) (a : α)
    (h : amFind m k = some a) : (k, a) ∈ m := by
  induction m with
  | nil => exact Option.noConfusion h
  | cons p rest ih =>
    obtain ⟨k2, v⟩ := p
    simp only [amFind] at h
    split at h
    · rw [Option.some_inj] at h
      subst h
      rename_i hk
      subst hk
      exact List.mem_cons_self _ _
    · exact List.mem_cons_of_mem _ (ih h)

theorem amFind_map {α β : Type} (F : String → α → β)
    (m : List (String × α)) (k : String) :
    amFind (m.map (fun p => (p.1, F p.1 p.2))) k = (amFind m k).map (F k) := by
  induction m with
  | nil => rfl
  | cons p rest ih =>
    obtain ⟨k2, v⟩ := p
    simp only [List.map_cons, amFind]
    split
    · rename_i hk
      subst hk
      rfl
    · exact ih

theorem overlaps_symm (a b : Nat × Nat) (h : overlaps a b = true) :
    overlaps b a = true := by
  simp only [overlaps, decide_eq_true_eq] at h ⊢
  omega

/-- Membership in a neighbor list. -/
theorem mem_neighborsOf (lt : List (String × Nat × Nat)) (v u : String)
    (iv iu : Nat × Nat) (hmem : (u, iu) ∈ lt) (hne : u ≠ v)
    (hov : overlaps iv iu = true) : u ∈ neighborsOf lt v iv := by
  simp only [neighborsOf, List.mem_map, List.mem_filter]
  exact ⟨(u, iu), ⟨hmem, by simp [hne, hov]⟩, rfl⟩

theorem colorGo_inv (lt : List (String × Nat × Nat)) (regNames : List String) :
    ∀ (order : List String) (alloc : String → Option String),
      ColorInv lt alloc →
      ColorInv lt (colorGo (interfGraph lt) regNames order alloc) := by
  intro order
  induction order with
  | nil => intro alloc h; exact h
  | cons v0 rest ih =>
    intro alloc hinv
    simp only [colorGo]
    split
    · exact ih alloc hinv
    · rename_i ns hg
      have hg2 : (amFind lt v0).map (fun iv => neighborsOf lt v0 iv) = some ns := by
        rw [← hg, interfGraph]
        exact (amFind_map (fun k iv => neighborsOf lt k iv) lt v0).symm
      rcases hlv0 : amFind lt v0 with _ | iv0
      · rw [hlv0] at hg2; exact Option.noConfusion hg2
      rw [hlv0] at hg2
      have hg2 : neighborsOf lt v0 iv0 = ns := Option.some_inj.mp hg2
      split
      · rename_i rg hsel
        apply ih
        have hpred := List.find?_some hsel
        have hnotmem : rg ∉ ns.filterMap alloc := by
          intro hmm
          simp [List.elem_iff, hmm] at hpred
        intro u v iu iv ru rv hne hu hv hov hau hav
        by_cases hu0 : u = v0 <;> by_cases hv0 : v = v0
        · exact absurd (hu0.trans hv0.symm) hne
        · subst hu0
          have hrg : ru = rg := by
            have h2 : some rg = some ru := by simpa using hau
            exact (Option.some_inj.mp h2).symm
          have hav2 : alloc v = some rv := by simpa [hv0] using hav
          have hmemv : v ∈ ns := by
            rw [← hg2]
            rw [hu] at hlv0
            rw [Option.some_inj] at hlv0
            subst hlv0
            exact mem_neighborsOf lt u v iu iv (amFind_mem lt v iv hv)
              (fun hvv => hv0 hvv) hov
          rw [hrg]
          intro hcontra
          subst hcontra
          exact hnotmem (List.mem_filterMap.mpr ⟨v, hmemv, hav2⟩)
        · subst hv0
          have hrg : rv = rg := by
            have h2 : some rg = some rv := by simpa using hav
            exact (Option.some_inj.mp h2).symm
          have hau2 : alloc u = some ru := by simpa [hu0] using hau
          have hmemu : u ∈ ns := by
            rw [← hg2]
            rw [hv] at hlv0
            rw [Option.some_inj] at hlv0
            subst hlv0
            exact mem_neighborsOf lt v u iv iu (amFind_mem lt u iu hu)
              (fun huu => hu0 huu) (overlaps_symm _ _ hov)
          rw [hrg]
          intro hcontra
          subst hcontra
          exact hnotmem (List.mem_filterMap.mpr ⟨u, hmemu, hau2⟩)
        · have hau2 : alloc u = some ru := by simpa [hu0] using hau
          have hav2 : alloc v = some rv := by simpa [hv0] using hav
          exact hinv u v iu iv ru rv hne hu hv hov hau2 hav2
      · exact ih alloc hinv

/-- C9 amended: the graph-coloring allocator DOES return a valid
coloring — for every input instruction list and register file, two
distinct variables whose computed live intervals overlap are never
mapped to the same register — because `color` always avoids the colors
of already-colored interference-graph neighbors.  The linear-scan
allocator does not (see `c9_counterexample`): its spill path hands the
victim's register to the new overlapping interval while the victim's
earlier map entry survives. -/
theorem c9_amended (instrs : List IRInstrA) (availableRegs : List Register)
    (u v : String) (iu iv : Nat × Nat) (ru rv : String)
    (hne : u ≠ v)
    (hu : amFind (computeLifetimes instrs) u = some iu)
    (hv : amFind (computeLifetimes instrs) v = some iv)
    (hov : overlaps iu iv = true)
    (hau : gcAllocate instrs availableRegs u = some ru)
    (hav : gcAllocate instrs availableRegs v = some rv) :
    ru ≠ rv := by
  have h := colorGo_inv (computeLifetimes instrs)
    ((availableRegs.filter (fun r => r.isAllocatable && !r.isReserved)).map
      (fun r => r.name))
    (simplifyGC (interfGraph (computeLifetimes instrs)))
    (fun _ => none)
    (fun _ _ _ _ _ _ _ _ _ _ h _ => Option.noConfusion h)
  exact h u v iu iv ru rv hne hu hv hov hau hav

/-- Witness for `c9_amended`: on `c9Instrs` with two registers the
graph-coloring allocator separates the overlapping `a` and `b`. -/
theorem c9_amended_witness : ("s2" : String) ≠ "s1" :=
  c9_amended c9Instrs c9TwoRegs "a" "b" (0, 3) (1, 2) "s2" "s1"
    (by decide) rfl rfl (by decide) rfl rfl

/-- C10 confirmed: `tokenize` is a total function (defined by
well-founded recursion on `source.length - position`, the C++
termination argument: whitespace/comment skipping never moves
backwards and every scanned token consumes at least one character), so
it terminates on every finite input — unterminated block comments and
unclassifiable characters included — and its result is non-empty with
the final token of type END_OF_FILE. -/
theorem c10_confirmed (src : List Char) :
    tokenize src ≠ [] ∧
    ((tokenize src).getLast?).map Token.type = some TokType.endOfFile := by
  constructor
  · unfold tokenize
    simp
  · unfold tokenize
    rw [List.getLast?_concat]
    rfl

end ToyC
